import Mathlib

/-!
# Verification of the attachments processing-graph runtime

A shallow embedding of the `attachments` Python package (core.py, adapt.py,
refine.py, present.py, load.py, matchers.py) together with theorems checking
the natural-language specification against it.

Conventions:
* Python strings are Lean `String`s; scans work on `String.data` (`List Char`).
* Python dicts are association lists with Python's insert-or-overwrite
  semantics (`dictSet`); key order is insertion order, as in CPython.
* External collaborators (file system, PIL, pdfplumber, pypdfium2) are
  modelled as explicit oracle parameters of `Except`/`Option` type.
* Fallible Python code returns `Except String _`; an uncaught exception is
  the `.error` case.
-/

namespace Attachments

/-- Python whitespace for `str.strip()` (ASCII fragment; the claims only
exercise ASCII input). -/
def isPyWs (c : Char) : Bool :=
  c = ' ' || c = '\t' || c = '\n' || c = '\r' || c = '\x0b' || c = '\x0c'

/-- `str.strip()` on a character list: drop whitespace at both ends. -/
def pstripL (l : List Char) : List Char :=
  ((l.dropWhile isPyWs).reverse.dropWhile isPyWs).reverse

/-- Python `str.strip()`. -/
def pstrip (s : String) : String := ⟨pstripL s.data⟩

/-- `l` begins with `n` (char-level, kernel-reducible). -/
def listStarts : List Char → List Char → Bool
  | [], _ => true
  | _ :: _, [] => false
  | a :: as, b :: bs => a = b && listStarts as bs

def listHasSub (n : List Char) : List Char → Bool
  | [] => listStarts n []
  | c :: t => listStarts n (c :: t) || listHasSub n t

/-- Python `needle in haystack` on strings (substring containment). -/
def pyIn (needle hay : String) : Bool :=
  listHasSub needle.data hay.data

/-- Python `s.startswith(p)`. -/
def strStarts (s p : String) : Bool :=
  listStarts p.data s.data

/-- Python `s.endswith(p)`. -/
def strEnds (s p : String) : Bool :=
  listStarts p.data.reverse s.data.reverse

/-- Python `str.lower()` (ASCII fragment). -/
def pyLower (s : String) : String :=
  ⟨s.data.map Char.toLower⟩

/-- Python `str.split(sep)` for a single-character separator. -/
def splitOnChar (c : Char) : List Char → List (List Char)
  | [] => [[]]
  | x :: xs =>
    let r := splitOnChar c xs
    if x = c then [] :: r
    else
      match r with
      | [] => [[x]]
      | h :: t => (x :: h) :: t

def pySplit (s : String) (c : Char) : List String :=
  (splitOnChar c s.data).map (fun l => ⟨l⟩)

/-- Python `s.split(c, 1)` when `c` occurs: the part before the first `c`
and everything after it. -/
def splitFirst (s : String) (c : Char) : String × String :=
  (⟨s.data.takeWhile (fun x => x ≠ c)⟩,
   ⟨(s.data.dropWhile (fun x => x ≠ c)).tail⟩)

/-- Python dict assignment `d[k] = v` (any value type): overwrite in place
if the key exists (keeping its position), else append. -/
def dictSet {β : Type} (d : List (String × β)) (k : String) (v : β) :
    List (String × β) :=
  if d.any (fun p => p.1 = k) then
    d.map (fun p => if p.1 = k then (k, v) else p)
  else d ++ [(k, v)]

/-- Lookup in an association list (keys are unique in dicts built by
`dictSet`, so first match is the binding). -/
def dlookup {β : Type} (d : List (String × β)) (k : String) : Option β :=
  match d.find? (fun p => p.1 = k) with
  | some p => some p.2
  | none => none

/-! ## DSL parser (`Attachment._parse_attachy`, core.py 207-218)

The Python code is `re.sub(r'\[([^:]+):([^\]]+)\]', extract_command, attachy)`
with `extract_command` recording `commands[key.strip()] = value.strip()` for
each match, and the remainder `.strip()`-ed as the path.

Because `[^:]+` cannot contain `:` and `[^\]]+` cannot contain `]`, the
regex is deterministic at every start position: group 1 is the maximal
nonempty run of non-`:` characters followed by `:`, group 2 the maximal
nonempty run of non-`]` characters followed by `]`; no backtracking can
produce any other match.  `re.sub` attempts a match at each position
left-to-right and resumes after the end of each match.  Note that when
`dropWhile (· ≠ c) l` is nonempty its head is exactly `c`, so the heads of
`r1`/`r3` below need no further test. -/

/-- One attempted match of `\[([^:]+):([^\]]+)\]` at the head of `cs`.
Returns `(key, value, rest-after-match)` on success. -/
def matchCmd : List Char → Option (List Char × List Char × List Char)
  | [] => none
  | c :: rest =>
    if c = '[' then
      let k := rest.takeWhile (fun x => x ≠ ':')
      match rest.dropWhile (fun x => x ≠ ':') with
      | [] => none
      | _ :: r2 =>
        if k = [] then none
        else
          let v := r2.takeWhile (fun x => x ≠ ']')
          match r2.dropWhile (fun x => x ≠ ']') with
          | [] => none
          | _ :: r4 => if v = [] then none else some (k, v, r4)
    else none

/-- The `re.sub` scan, fuelled for structural recursion (`scanAttachy` below
always supplies enough fuel).  At each position: try a match; on success
record the `(key, value)` pair and resume after the match; on failure copy
the character into the remainder and advance one position. -/
def scanGo : Nat → List Char → List Char × List (List Char × List Char)
  | 0, l => (l, [])
  | _ + 1, [] => ([], [])
  | fuel + 1, c :: cs =>
    match matchCmd (c :: cs) with
    | some (k, v, rest) =>
      let r := scanGo fuel rest
      (r.1, (k, v) :: r.2)
    | none =>
      let r := scanGo fuel cs
      (c :: r.1, r.2)

/-- The full left-to-right scan of `re.sub`: returns the remainder
characters and the raw `(key, value)` pairs in match order. -/
def scanAttachy (l : List Char) : List Char × List (List Char × List Char) :=
  scanGo l.length l

/-- The stripped `(key, value)` pairs handed to the command dict, in match
order (each match runs `commands[key.strip()] = value.strip()`). -/
def stripPairs (l : List (List Char × List Char)) : List (String × String) :=
  l.map (fun kv => (⟨pstripL kv.1⟩, ⟨pstripL kv.2⟩))

/-- `Attachment._parse_attachy` (core.py 207-218): extract all regex matches
into the command dict (stripping keys and values, later assignments
overwriting earlier ones) and strip the remainder as the path. -/
def parse_attachy (s : String) : String × List (String × String) :=
  if s.data = [] then ("", [])
  else
    let r := scanAttachy s.data
    (⟨pstripL r.1⟩,
     (stripPairs r.2).foldl (fun d kv => dictSet d kv.1 kv.2) [])

/-- Character-level rendering of a command list as `[key:value]` blocks. -/
def emitBlocks (pairs : List (List Char × List Char)) : List Char :=
  (pairs.map (fun kv => '[' :: (kv.1 ++ ':' :: (kv.2 ++ [']'])))).flatten

/-- Last-occurrence semantics of repeated dict assignment. -/
def lastVal (ps : List (String × String)) (k : String) : Option String :=
  ps.foldl (fun acc p => if p.1 = k then some p.2 else acc) none

def dictKeys {β : Type} (d : List (String × β)) : List String := d.map Prod.fst

/-- Re-emission of a parsed `(path, commands)` pair: the path with each
`[key:value]` command appended. -/
def emit_attachy (path : String) (cmds : List (String × String)) : String :=
  ⟨path.data ++ emitBlocks (cmds.map (fun kv => (kv.1.data, kv.2.data)))⟩

/-- The key grammar claimed by the spec: `[A-Za-z_][A-Za-z0-9_]*`. -/
def isIdentKey (s : String) : Bool :=
  match s.data with
  | [] => false
  | c :: cs => (c.isAlpha || c = '_') && cs.all (fun x => x.isAlphanum || x = '_')

/-! ## Data model (`Attachment`, core.py 192-218)

Metadata values are modelled by a small closed universe covering every
value the embedded verbs store.  A Python float is stored as an exact
`ratio`; a `processing`/`processing_errors` list holds `ProcEntry` records
(a dict with an `operation` key plus string and int fields). -/

/-- One entry of a `processing`/`processing_errors` metadata list. -/
structure ProcEntry where
  operation : String
  strFields : List (String × String)
  intFields : List (String × Int)
deriving DecidableEq, Repr

inductive MetaVal where
  | s (v : String)
  | i (v : Int)
  | b (v : Bool)
  | null
  | strs (v : List String)
  | ints (v : List Int)
  | ratio (num den : Nat)
  | procs (v : List ProcEntry)
deriving DecidableEq, Repr

instance {ε α : Type} [DecidableEq ε] [DecidableEq α] :
    DecidableEq (Except ε α) := fun a b =>
  match a, b with
  | .ok x, .ok y =>
    if h : x = y then .isTrue (by rw [h])
    else .isFalse (fun hc => h (by injection hc))
  | .error x, .error y =>
    if h : x = y then .isTrue (by rw [h])
    else .isFalse (fun hc => h (by injection hc))
  | .ok _, .error _ => .isFalse (fun hc => Except.noConfusion hc)
  | .error _, .ok _ => .isFalse (fun hc => Except.noConfusion hc)

/-- Model of `pdfplumber.PDF`: per page, the result of
`page.extract_text() or ""` (`.error` = an exception raised during
extraction). -/
structure PdfDoc where
  pages : List (Except String String)
deriving DecidableEq, Repr

/-- The opaque payload (`att._obj`) over the payload kinds the embedded
verbs consume. -/
inductive PyObj where
  | str (v : String)
  | pdf (d : PdfDoc)
  | dataFrame
  | pilImage (w h : Nat)
  | soup
deriving DecidableEq, Repr

/-- Python `type(obj).__name__` for the modelled payloads. -/
def PyObj.typeName : PyObj → String
  | .str _ => "str"
  | .pdf _ => "PDF"
  | .dataFrame => "DataFrame"
  | .pilImage _ _ => "PngImageFile"
  | .soup => "BeautifulSoup"

/-- The central record (core.py 192-205). -/
structure Attachment where
  path : String
  commands : List (String × String)
  obj : Option PyObj
  text : String
  images : List String
  audio : List String
  metadata : List (String × MetaVal)
  pipeline : List String
deriving DecidableEq, Repr

/-- `Attachment.__init__` (core.py 195-205): parse the DSL, start with
empty buffers. -/
def attach (attachy : String) : Attachment :=
  let r := parse_attachy attachy
  { path := r.1, commands := r.2, obj := none, text := "", images := [],
    audio := [], metadata := [], pipeline := [] }

/-- Metadata dict lookup. -/
def mlookup (d : List (String × MetaVal)) (k : String) : Option MetaVal :=
  dlookup d k

/-- Metadata dict assignment `d[k] = v` (Python semantics, as `dictSet`). -/
def mdictSet (d : List (String × MetaVal)) (k : String) (v : MetaVal) :
    List (String × MetaVal) :=
  dictSet d k v

/-- Python `dict.update` with the given key/value pairs, in order. -/
def mupdate (d kvs : List (String × MetaVal)) : List (String × MetaVal) :=
  kvs.foldl (fun d kv => dictSet d kv.1 kv.2) d

/-- Python `metadata.setdefault(k, []).append(e)` for a processing list.
(On a key holding a non-list value the Python code would raise; the
embedded verbs only ever store lists under these keys.) -/
def appendProc (d : List (String × MetaVal)) (k : String) (e : ProcEntry) :
    List (String × MetaVal) :=
  match mlookup d k with
  | some (.procs l) => mdictSet d k (.procs (l ++ [e]))
  | some _ => d
  | none => d ++ [(k, .procs [e])]

/-- The operations recorded in the `processing` metadata list. -/
def processing_ops (md : List (String × MetaVal)) : List String :=
  match mlookup md "processing" with
  | some (.procs l) => l.map (fun e => e.operation)
  | _ => []

/-- `Attachment.__str__` (core.py 274-276): the text buffer when nonempty
(Python truthiness), else a placeholder built from the path. -/
def Attachment.toStr (a : Attachment) : String :=
  if a.text ≠ "" then a.text
  else "[No text content from " ++ a.path ++ "]"

/-! ## Collections (`AttachmentCollection`, core.py 122-190) -/

/-- Python `sep.join(strings)`. -/
def joinSep (sep : String) : List String → String
  | [] => ""
  | [x] => x
  | x :: xs => x ++ sep ++ joinSep sep xs

/-- `AttachmentCollection.to_attachment` (core.py 164-181): fold the
collection into one attachment. -/
def to_attachment (atts : List Attachment) : Attachment :=
  if atts = [] then attach ""
  else
    { attach "" with
      text := joinSep "\n\n" ((atts.map (fun a => a.text)).filter (fun t => t ≠ "")),
      images := (atts.map (fun a => a.images)).flatten,
      audio := (atts.map (fun a => a.audio)).flatten,
      metadata := [("collection_size", .i atts.length),
                   ("combined_from", .strs (atts.map (fun a => a.path)))] }

/-! ## Vectorize / reduce (`AttachmentCollection.__or__`, core.py 128-162) -/

/-- A verb as seen by `AttachmentCollection.__or__`: its registered `name`
(when the callable has one), its action on a single attachment (`none`
models a Python function returning `None`, which the vectorizer drops),
and its action on the whole collection, used in the reducer branch (for
adapters this value is the adapter result that exits the pipeline). -/
structure Operation (ρ : Type) where
  name : Option String
  onAtt : Attachment → Option Attachment
  onColl : List Attachment → ρ

/-- The fixed reducer-name set of `AttachmentCollection._is_reducer`
(core.py 157-160). -/
def reducing_operations : List String :=
  ["tile_images", "combine_images", "merge_text",
   "claude", "openai_chat", "openai_response"]

/-- The adapter names registered in adapt.py. -/
def registered_adapters : List String :=
  ["openai_chat", "openai_response", "claude", "openai", "dspy"]

/-- `AttachmentCollection._is_reducer` (core.py 153-162). -/
def is_reducer {ρ : Type} (op : Operation ρ) : Bool :=
  match op.name with
  | some n => reducing_operations.contains n
  | none => false

inductive PipeResult (ρ : Type) where
  | reduced (r : ρ)
  | vectorized (l : List Attachment)
deriving DecidableEq

/-- `AttachmentCollection.__or__` (core.py 128-142): reducers get the whole
collection; otherwise the verb is mapped over the attachments, dropping
`None` results. -/
def collection_or {ρ : Type} (atts : List Attachment) (op : Operation ρ) :
    PipeResult ρ :=
  if is_reducer op then .reduced (op.onColl atts)
  else .vectorized (atts.filterMap op.onAtt)

/-! ## Loaders (`VerbNamespace._make_loader_wrapper`, core.py 629-650;
load.py; matchers.py) -/

/-- `matchers.text_match`. -/
def text_match (att : Attachment) : Bool :=
  strEnds att.path ".txt" || strEnds att.path ".md" || strEnds att.path ".log"
    || strEnds att.path ".json" || strEnds att.path ".py"

/-- `load.text_to_string` (load.py 238-245), with the file system as an
oracle (`read path` models `open(path, encoding=utf-8).read()`; `.error`
is an uncaught I/O exception). On success it stores the content as the
payload and as the text buffer. -/
def text_to_string (read : String → Except String String) (att : Attachment) :
    Except String Attachment :=
  match read att.path with
  | .ok content => .ok { att with obj := some (.str content), text := content }
  | .error e => .error e

/-- `VerbNamespace._make_loader_wrapper` (core.py 629-650), specialised to
an attachment input (string inputs are first wrapped by `attach`): skip
when the payload is already set, skip when the predicate rejects, else run
the loader (whose exceptions propagate). -/
def make_loader_wrapper (matchFn : Attachment → Bool)
    (loaderFn : Attachment → Except String Attachment)
    (input : Attachment) : Except String Attachment :=
  if input.obj.isSome then .ok input
  else if matchFn input then loaderFn input
  else .ok input

/-! ## Numeric conversions (Python `int()` / `float()` on strings) -/

def digitsToNat (ds : List Char) : Nat :=
  ds.foldl (fun a c => a * 10 + (c.toNat - 48)) 0

/-- Python `int(s)`: optional sign then a nonempty digit run (surrounding
whitespace allowed); anything else raises `ValueError`. -/
def pyInt (s : String) : Option Int :=
  let t := (pstrip s).data
  let p : Int × List Char :=
    match t with
    | '-' :: r => (-1, r)
    | '+' :: r => (1, r)
    | _ => (1, t)
  if p.2 ≠ [] ∧ p.2.all Char.isDigit then
    some (p.1 * (digitsToNat p.2 : Int))
  else none

/-- Python `float(s)` for plain decimal literals, as an exact rational
(binary-float rounding is collaborator detail the claims never touch). -/
def pyFloat (s : String) : Option Rat :=
  let t := (pstrip s).data
  let p : Rat × List Char :=
    match t with
    | '-' :: r => (-1, r)
    | '+' :: r => (1, r)
    | _ => (1, t)
  match splitOnChar '.' p.2 with
  | [ip] =>
    if ip ≠ [] ∧ ip.all Char.isDigit then some (p.1 * (digitsToNat ip : Rat))
    else none
  | [ip, fp] =>
    if (ip ≠ [] ∨ fp ≠ []) ∧ ip.all Char.isDigit ∧ fp.all Char.isDigit then
      some (p.1 * ((digitsToNat ip : Rat) +
        (digitsToNat fp : Rat) / ((10 : Rat) ^ fp.length)))
    else none
  | _ => none

/-- Python `int(x)` on a float: truncation toward zero. -/
def ratTrunc (q : Rat) : Int :=
  if 0 ≤ q then q.floor else q.ceil

/-- Python string slicing `s[:limit]` for an integer `limit` (negative
limits count from the end, clamped at zero). -/
def pySliceTo (s : String) (limit : Int) : String :=
  if 0 ≤ limit then ⟨s.data.take limit.toNat⟩
  else ⟨s.data.take (s.data.length - (-limit).toNat)⟩

/-! ## Refiners (refine.py) -/

/-- `refine.truncate` (refine.py 5-21).  The limit comes from the argument
or from `commands.truncate` (default 1000); a non-integer command raises.
When the text is truncated, a `processing` entry with
`operation = "truncate"` is appended (the code computes `original_length`
from the already-truncated text, hence the `+ 3 - 3`). -/
def truncate_limit (limitArg : Option Int) (att : Attachment) :
    Except String Int :=
  match limitArg with
  | some l => .ok l
  | none =>
    match dlookup att.commands "truncate" with
    | some sv =>
      match pyInt sv with
      | some l => .ok l
      | none => .error ("invalid literal for int(): " ++ sv)
    | none => .ok 1000

def truncate (limitArg : Option Int) (att : Attachment) :
    Except String Attachment :=
  match truncate_limit limitArg att with
  | .error e => .error e
  | .ok limit =>
    if att.text ≠ "" ∧ limit < (att.text.length : Int) then
      let newText := pySliceTo att.text limit ++ "..."
      .ok { att with
            text := newText,
            metadata := appendProc att.metadata "processing"
              ⟨"truncate", [],
               [("original_length", (newText.length : Int) + 3 - 3),
                ("truncated_length", (newText.length : Int))]⟩ }
    else .ok att

/-- `refine.add_headers` (refine.py 23-32). -/
def add_headers (att : Attachment) : Attachment :=
  if att.text ≠ "" then
    match pySplit att.text '\n' with
    | [] => att
    | l0 :: _ =>
      if ¬ strStarts l0 "#" then
        { att with text := "# " ++ att.path ++ "\n\n" ++ att.text }
      else att
  else att

/-- `refine.format_tables` (refine.py 34-40): `text.replace('\t', ' | ')`,
char-level. -/
def format_tables (att : Attachment) : Attachment :=
  if att.text ≠ "" then
    { att with text :=
        ⟨(att.text.data.map (fun c =>
            if c = '\t' then [' ', '|', ' '] else [c])).flatten⟩ }
  else att

/-- Resize-specification parsing shared by `refine.resize_images`
(refine.py 165-184): `N%`, `WxH` (split at the first `x`), or a single
width with the aspect ratio preserved; results are clamped to 1×1.
`.error` is a raised `ValueError`/`ZeroDivisionError`. -/
def parse_resize_dims (spec : String) (w h : Nat) : Except String (Nat × Nat) :=
  if strEnds spec "%" then
    match pyFloat ⟨spec.data.dropLast⟩ with
    | none => .error ("could not convert string to float: " ++ spec)
    | some f =>
      let pct := f / 100
      .ok ((max 1 (ratTrunc ((w : Rat) * pct))).toNat,
           (max 1 (ratTrunc ((h : Rat) * pct))).toNat)
  else if pyIn "x" spec then
    match pyInt (splitFirst spec 'x').1, pyInt (splitFirst spec 'x').2 with
    | some nw, some nh => .ok ((max 1 nw).toNat, (max 1 nh).toNat)
    | _, _ => .error ("invalid literal for int(): " ++ spec)
  else
    match pyInt spec with
    | none => .error ("invalid literal for int(): " ++ spec)
    | some nw =>
      if w = 0 then .error "division by zero"
      else
        .ok ((max 1 nw).toNat,
             (max 1 (ratTrunc ((nw : Rat) * ((h : Rat) / (w : Rat))))).toNat)

/-- Per-image loop of `refine.resize_images` (refine.py 147-216).
`decode` models `base64.b64decode` + `Image.open` + `convert("RGB")`
(returning the image dimensions), `encode` the resized re-encoding to
base64 PNG; a failing image is skipped and recorded in
`processing_errors` (the collaborator determines the exception text). -/
def resize_images_go (decode : String → Except String (Nat × Nat))
    (encode : Nat × Nat → String) (spec : String) :
    List String → List String → List (String × MetaVal) →
      List String × List (String × MetaVal)
  | [], resized, md => (resized, md)
  | img :: rest, resized, md =>
    if strStarts img "data:image/" ∧ ¬ pyIn "," img then
      resize_images_go decode encode spec rest resized
        (appendProc md "processing_errors"
          ⟨"resize_images",
           [("error", "Failed to process image: list index out of range")],
           [("image_index", (resized.length : Int))]⟩)
    else
      match decode (if strStarts img "data:image/" then (splitFirst img ',').2
                    else img) with
      | .error e =>
        resize_images_go decode encode spec rest resized
          (appendProc md "processing_errors"
            ⟨"resize_images", [("error", "Failed to process image: " ++ e)],
             [("image_index", (resized.length : Int))]⟩)
      | .ok wh =>
        match parse_resize_dims spec wh.1 wh.2 with
        | .error e =>
          resize_images_go decode encode spec rest resized
            (appendProc md "processing_errors"
              ⟨"resize_images",
               [("error", "Invalid resize specification '" ++ spec ++ "': " ++ e)],
               [("image_index", (resized.length : Int))]⟩)
        | .ok dims =>
          resize_images_go decode encode spec rest
            (resized ++ [if strStarts img "data:image/" then
                "data:image/png;base64," ++ encode dims
              else encode dims]) md

/-- `refine.resize_images` (refine.py 130-233): replace the image list by
the successfully resized images (failures are dropped), then append a
`processing` entry (whose `images_failed` field the code computes from the
already-replaced list, hence always zero). -/
def resize_images (decode : String → Except String (Nat × Nat))
    (encode : Nat × Nat → String) (att : Attachment) : Attachment :=
  let spec := (dlookup att.commands "resize_images").getD "800x600"
  let r := resize_images_go decode encode spec att.images [] att.metadata
  { att with
    images := r.1,
    metadata := appendProc r.2 "processing"
      ⟨"resize_images", [("resize_spec", spec)],
       [("images_processed", (r.1.length : Int)),
        ("images_failed", (r.1.length : Int) - (r.1.length : Int))]⟩ }

/-! ## Modifiers (modify.py) -/

/-- Python `range(s, e + 1)` over integers. -/
def rangeInts (s e : Int) : List Int :=
  if s ≤ e then (List.range (e - s + 1).toNat).map (fun i => s + (i : Int))
  else []

/-- Page-specification parsing of the PDF `pages` modifier
(modify.py 26-38): comma-separated `N`, `A-B` and `-1` (= last page)
entries; malformed integers raise. -/
def parse_pages_spec (pdfLen : Nat) (spec : String) : Except String (List Int) :=
  (pySplit spec ',').foldl
    (fun acc rawPart =>
      match acc with
      | .error e => .error e
      | .ok sel =>
        let part := pstrip rawPart
        if pyIn "-" part ∧ ¬ strStarts part "-" then
          match pySplit part '-' with
          | [a, b] =>
            match pyInt a, pyInt b with
            | some s, some e => .ok (sel ++ rangeInts s e)
            | _, _ => .error ("invalid literal for int(): " ++ part)
          | _ => .error ("cannot unpack range: " ++ part)
        else if part = "-1" then .ok (sel ++ [(pdfLen : Int)])
        else
          match pyInt part with
          | some n => .ok (sel ++ [n])
          | none => .error ("invalid literal for int(): " ++ part))
    (.ok [])

/-- `modify.pages` for `pdfplumber.PDF` (modify.py 16-41): records the
selected page numbers in `metadata.selected_pages`; no other field
changes. -/
def pages_pdf (att : Attachment) (pdf : PdfDoc) : Except String Attachment :=
  match dlookup att.commands "pages" with
  | none => .ok att
  | some spec =>
    match parse_pages_spec pdf.pages.length spec with
    | .error e => .error e
    | .ok sel =>
      .ok { att with
            metadata := mdictSet att.metadata "selected_pages" (.ints sel) }

/-! ## Presenters (present.py) -/

/-- Display of `f"{avg:.0f}"` for the exact average `total / n`
(rounding-to-nearest; the binary-float and tie-rounding details are
cosmetic to the summary text and are not load-bearing anywhere). -/
def ratioDisplay (total n : Nat) : String :=
  if n = 0 then "0" else toString ((2 * total + n) / (2 * n))

/-- The page loop of `present.markdown` for `pdfplumber.PDF`
(present.py 36-51): walk the 1-based page numbers, appending a section per
in-range page, accumulating the total stripped-text length and the count
of pages with text; an extraction exception aborts the loop with the text
accumulated so far. -/
def md_pdf_pages (pdf : PdfDoc) : List Int → String → Nat → Nat →
    String × Nat × Nat × Option String
  | [], acc, total, wt => (acc, total, wt, none)
  | n :: ns, acc, total, wt =>
    if 1 ≤ n ∧ n ≤ (pdf.pages.length : Int) then
      match pdf.pages[(n - 1).toNat]? with
      | some (.ok pageText) =>
        if pstrip pageText ≠ "" then
          md_pdf_pages pdf ns
            (acc ++ "## Page " ++ toString n ++ "\n\n" ++ pageText ++ "\n\n")
            (total + (pstrip pageText).length) (wt + 1)
        else
          md_pdf_pages pdf ns
            (acc ++ "## Page " ++ toString n ++
              "\n\n*[No extractable text - likely scanned image]*\n\n")
            total wt
      | some (.error e) => (acc, total, wt, some e)
      | none => (acc, total, wt, some "page index out of range")
    else md_pdf_pages pdf ns acc total wt

/-- `present.markdown` for `pdfplumber.PDF` (present.py 20-92).  The
header is appended before the `try`; on an extraction exception the error
is appended to the *text* (`*Error extracting PDF text: ...*`) and the
metadata is left untouched; on success the scanned-document heuristic
(`pages_with_text == 0 or avg < 50 or pages_with_text/total < 0.3`,
modelled with exact rational comparisons) picks the summary block and the
metadata update. -/
def pdf_pages_to_process (att : Attachment) (pdf : PdfDoc) : List Int :=
  match mlookup att.metadata "selected_pages" with
  | some (.ints l) => l
  | _ => (List.range pdf.pages.length).map (fun i => (i : Int) + 1)

def markdown_pdf (att : Attachment) (pdf : PdfDoc) : Attachment :=
  let baseText := att.text ++ "# PDF Document: " ++ att.path ++ "\n\n"
  let pagesToProcess : List Int := pdf_pages_to_process att pdf
  match md_pdf_pages pdf pagesToProcess "" 0 0 with
  | (acc, _, _, some e) =>
    { att with
      text := baseText ++ acc ++ "*Error extracting PDF text: " ++ e ++ "*\n\n" }
  | (acc, total, wt, none) =>
    let n := pagesToProcess.length
    let avgMeta : MetaVal := if n = 0 then .ratio 0 1 else .ratio total n
    let scanned : Bool :=
      (wt == 0) || (n == 0) || decide (total < 50 * n) || decide (10 * wt < 3 * n)
    if scanned then
      { att with
        text := baseText ++ acc ++
          "\n📄 **Document Analysis**: This appears to be a scanned PDF with little to no extractable text.\n\n" ++
          "- **Pages processed**: " ++ toString n ++ "\n" ++
          "- **Pages with text**: " ++ toString wt ++ "\n" ++
          "- **Average text per page**: " ++ ratioDisplay total n ++
            " characters\n\n" ++
          "💡 **Suggestions**:\n" ++
          "- Use the extracted images for vision-capable LLMs (Claude, GPT-4V)\n" ++
          "- Consider OCR tools like `pytesseract` for text extraction\n" ++
          "- The images are available in the `images` property for multimodal analysis\n\n",
        metadata := mupdate att.metadata
          [("is_likely_scanned", .b true),
           ("pages_with_text", .i wt),
           ("total_pages", .i n),
           ("avg_text_per_page", avgMeta),
           ("text_extraction_quality",
             .s (if n ≠ 0 ∧ 20 * n ≤ total then "limited" else "poor"))] }
    else
      { att with
        text := baseText ++ acc ++ "*Total pages processed: " ++ toString n ++
          "*\n\n",
        metadata := mupdate att.metadata
          [("is_likely_scanned", .b false),
           ("pages_with_text", .i wt),
           ("total_pages", .i n),
           ("avg_text_per_page", avgMeta),
           ("text_extraction_quality", .s "good")] }

/-- `present.images` for `pdfplumber.PDF` (present.py 397-502).  The
pypdfium2 rasterization (page loop, 2× scale, resize command, page cap) is
the collaborator; its outcome is the oracle: `none` = pypdfium2 missing,
`.error` = any exception in the rendering block, `.ok (pages, num)` = the
base64 page renderings and the document's page count.  Failures are
recorded under `metadata.pdf_images_error` and every other field is left
unchanged. -/
def images_pdf (render : Option (Except String (List String × Nat)))
    (att : Attachment) : Attachment :=
  match render with
  | none =>
    { att with
      metadata := mdictSet att.metadata "pdf_images_error"
        (.s "pypdfium2 not installed. Install with: pip install pypdfium2") }
  | some (.error e) =>
    { att with
      metadata := mdictSet att.metadata "pdf_images_error"
        (.s ("Error rendering PDF: " ++ e)) }
  | some (.ok pr) =>
    let imgs := pr.1.map (fun b => "data:image/png;base64," ++ b)
    { att with
      images := att.images ++ imgs,
      metadata := mupdate att.metadata
        [("pdf_pages_rendered", .i imgs.length),
         ("pdf_total_pages", .i pr.2),
         ("pdf_resize_applied",
           match dlookup att.commands "resize" with
           | some r => if r ≠ "" then .s r else .null
           | none => .null)] }

/-! ## Adapters (adapt.py) -/

/-- One content part of a Claude-shape message. -/
inductive ClaudePart where
  | text (t : String)
  | image (sourceType mediaType payload : String)
deriving DecidableEq, Repr

/-- A Claude-shape message `{"role": ..., "content": [...]}`. -/
structure ClaudeMessage where
  role : String
  content : List ClaudePart
deriving DecidableEq, Repr

/-- The per-image filter of `adapt.claude` (adapt.py 91-111): keep only
strings longer than 10 characters; strip a data-URL prefix at the first
comma (a comma-less data URL is skipped); skip entries ending in
`_placeholder` (unless they are data URLs). -/
def claude_image_part (img : String) : Option ClaudePart :=
  if img ≠ "" ∧ 10 < img.length then
    if strStarts img "data:image/" then
      if pyIn "," img then
        some (.image "base64" "image/png" (splitFirst img ',').2)
      else none
    else if strEnds img "_placeholder" then none
    else some (.image "base64" "image/png" img)
  else none

/-- `adapt.claude` (adapt.py 72-113) on a single attachment (a collection
is first folded by `_handle_collection` via `to_attachment`): one user
message; the effective prompt is the parameter when nonempty, else
`commands.prompt`; prompt and text are joined by a blank line into a
single text part. -/
def claude (att : Attachment) (prompt : String) : List ClaudeMessage :=
  let dslPrompt := (dlookup att.commands "prompt").getD ""
  let effectivePrompt := if prompt ≠ "" then prompt else dslPrompt
  let textParts : List ClaudePart :=
    if effectivePrompt ≠ "" ∧ att.text ≠ "" then
      [.text (effectivePrompt ++ "\n\n" ++ att.text)]
    else if effectivePrompt ≠ "" then [.text effectivePrompt]
    else if att.text ≠ "" then [.text att.text]
    else []
  [⟨"user", textParts ++ att.images.filterMap claude_image_part⟩]

/-! ## Smart presenter filter (core.py 359-521) -/

def text_patterns : List String :=
  ["text", "markdown", "csv", "xml", "html", "json", "yaml", "summary",
   "head", "metadata"]

def image_patterns : List String :=
  ["image", "thumbnail", "chart", "graph", "plot", "visual", "photo",
   "picture"]

/-- `_detect_presenter_category` (core.py 481-521): name-pattern detection;
`srcScan` is the outcome of the best-effort source-scan fallback (an
`inspect`-based collaborator) used only when no pattern matches. -/
def detect_presenter_category (srcScan name : String) : String :=
  let nl := pyLower name
  if image_patterns.any (fun p => pyIn p nl) then "image"
  else if text_patterns.any (fun p => pyIn p nl) then "text"
  else srcScan

/-- The preferred-presenter selection from `commands.format`
(core.py 404-418). -/
def preferred_presenter_for (textFormat name : String) : String :=
  if ["plain", "text", "txt"].contains textFormat then "text"
  else if ["markdown", "md"].contains textFormat then "markdown"
  else if ["code", "structured", "html", "xml", "json"].contains textFormat then
    if ["html", "xml", "csv"].contains name then name else "markdown"
  else "markdown"

def last_dot_component (s : String) : String :=
  (pySplit s '.').getLastD s

/-- The type-specific-handler check (core.py 428-443): does the registry
entry for the preferred presenter contain a non-fallback handler whose
class name (last dotted component) occurs in — or equals — the payload's
runtime type name? -/
def preferred_exists (registry : List (String × List (Option String)))
    (preferred objTypeName : String) : Bool :=
  match registry.find? (fun p => p.1 = preferred) with
  | none => false
  | some entry =>
    entry.2.any (fun et =>
      match et with
      | none => false
      | some expected =>
        pyIn (last_dot_component expected) objTypeName ||
          objTypeName = last_dot_component expected)

/-- `smart_presenter_wrapper` (core.py 383-454): the DSL-aware gate around
a presenter `f` named `name` with explicit `category` (auto-detected when
`none`), consulting the presenter `registry`. -/
def smart_presenter_wrapper (registry : List (String × List (Option String)))
    (category : Option String) (srcScan name : String)
    (f : Attachment → Attachment) (att : Attachment) : Attachment :=
  let cat := match category with
    | some c => c
    | none => detect_presenter_category srcScan name
  let includeImages :=
    pyLower ((dlookup att.commands "images").getD "true") ≠ "false"
  let textFormat := (dlookup att.commands "format").getD "markdown"
  if ¬ includeImages ∧ cat = "image" then att
  else if cat = "text" then
    if name = "text" ∨ name = "markdown" then
      let preferred := preferred_presenter_for textFormat name
      match att.obj with
      | some o =>
        if preferred_exists registry preferred o.typeName ∧ name ≠ preferred then
          att
        else f att
      | none => if name ≠ preferred then att else f att
    else f att
  else f att

/-! ### Processing-list well-formedness -/

/-- The well-formedness the verbs maintain for a processing-list key:
absent or an actual list (Python would raise on anything else). -/
def procsWF (md : List (String × MetaVal)) (k : String) : Prop :=
  mlookup md k = none ∨ ∃ l, mlookup md k = some (.procs l)

/-! ## Theorems -/

theorem matchCmd_none_of_head_ne {c : Char} (cs : List Char) (h : c ≠ '[') :
    matchCmd (c :: cs) = none := by
  simp [matchCmd, h]

theorem length_dropWhile_le' (p : Char → Bool) (l : List Char) :
    (l.dropWhile p).length ≤ l.length := by
  induction l with
  | nil => simp [List.dropWhile]
  | cons c cs ih =>
    by_cases h : p c
    · simp only [List.dropWhile, h]
      simp
      omega
    · simp [List.dropWhile, h]

theorem matchCmd_rest_lt {cs k v rest : List Char}
    (h : matchCmd cs = some (k, v, rest)) : rest.length < cs.length := by
  match cs with
  | [] => simp [matchCmd] at h
  | c :: t =>
    simp only [matchCmd] at h
    split at h
    · split at h
      · exact absurd h (by simp)
      · rename_i c2 r2 hd
        split at h
        · exact absurd h (by simp)
        · split at h
          · exact absurd h (by simp)
          · rename_i c3 r4 hd2
            split at h
            · exact absurd h (by simp)
            · simp only [Option.some.injEq, Prod.mk.injEq] at h
              obtain ⟨-, -, hr⟩ := h
              subst hr
              have h1 := length_dropWhile_le' (fun x => decide (x ≠ ':')) t
              have h2 := length_dropWhile_le' (fun x => decide (x ≠ ']')) r2
              rw [hd] at h1
              rw [hd2] at h2
              simp only [List.length_cons] at h1 h2 ⊢
              omega
    · exact absurd h (by simp)

theorem scanGo_fuel_irrel (f g : Nat) (l : List Char)
    (hf : l.length ≤ f) (hg : l.length ≤ g) : scanGo f l = scanGo g l := by
  induction f using Nat.strong_induction_on generalizing g l with
  | _ f ih =>
    match f, l with
    | 0, [] =>
      match g with
      | 0 => rfl
      | g + 1 => simp [scanGo]
    | f + 1, [] =>
      match g with
      | 0 => simp [scanGo]
      | g + 1 => simp [scanGo]
    | 0, c :: cs => simp at hf
    | f + 1, c :: cs =>
      match g with
      | 0 => simp at hg
      | g + 1 =>
        simp only [scanGo]
        simp only [List.length_cons] at hf hg
        cases hm : matchCmd (c :: cs) with
        | some kvr =>
          obtain ⟨k, v, rest⟩ := kvr
          have hlt := matchCmd_rest_lt hm
          simp only [List.length_cons] at hlt
          dsimp only
          rw [ih f (by omega) g rest (by omega) (by omega)]
        | none =>
          dsimp only
          rw [ih f (by omega) g cs (by omega) (by omega)]

theorem scanAttachy_nil : scanAttachy [] = ([], []) := rfl

theorem scanAttachy_cons_match {c : Char} {cs k v rest : List Char}
    (h : matchCmd (c :: cs) = some (k, v, rest)) :
    scanAttachy (c :: cs) =
      ((scanAttachy rest).1, (k, v) :: (scanAttachy rest).2) := by
  have hlt := matchCmd_rest_lt h
  simp only [List.length_cons] at hlt
  simp only [scanAttachy, List.length_cons, scanGo, h]
  rw [scanGo_fuel_irrel cs.length rest.length rest (by omega) (le_refl _)]

theorem scanAttachy_cons_nomatch {c : Char} {cs : List Char}
    (h : matchCmd (c :: cs) = none) :
    scanAttachy (c :: cs) = (c :: (scanAttachy cs).1, (scanAttachy cs).2) := by
  simp only [scanAttachy, List.length_cons, scanGo, h]

example : parse_attachy "report.pdf[pages:1-3][format:plain][images:false]" =
    ("report.pdf", [("pages", "1-3"), ("format", "plain"), ("images", "false")]) := by
  decide

example : parse_attachy "[k:v]a[b" = ("a[b", [("k", "v")]) := by decide

/-! ### Structural lemmas about the scan and the helpers -/

theorem mem_pstripL {x : Char} {l : List Char} (h : x ∈ pstripL l) : x ∈ l := by
  unfold pstripL at h
  rw [List.mem_reverse] at h
  have h1 := (List.dropWhile_sublist isPyWs
    (l := (l.dropWhile isPyWs).reverse)).mem h
  rw [List.mem_reverse] at h1
  exact (List.dropWhile_sublist isPyWs (l := l)).mem h1

theorem dropWhile_head_false {p : Char → Bool} {l m : List Char}
    (h : l.dropWhile p = m) (hm : m ≠ []) : p (m.head hm) = false := by
  subst h
  exact List.head_dropWhile_not p l hm

theorem dropWhile_eq_self_of_head {p : Char → Bool} {l : List Char}
    (h : ∀ hl : l ≠ [], p (l.head hl) = false) : l.dropWhile p = l := by
  match l with
  | [] => rfl
  | c :: cs =>
    have := h (by simp)
    simp only [List.head_cons] at this
    simp [List.dropWhile, this]

theorem pstripL_idem (l : List Char) : pstripL (pstripL l) = pstripL l := by
  unfold pstripL
  have hdq : (((l.dropWhile isPyWs).reverse.dropWhile isPyWs).reverse).dropWhile isPyWs
      = ((l.dropWhile isPyWs).reverse.dropWhile isPyWs).reverse := by
    apply dropWhile_eq_self_of_head
    intro hne
    have hqpre : ((l.dropWhile isPyWs).reverse.dropWhile isPyWs).reverse <+:
        l.dropWhile isPyWs := by
      conv_rhs => rw [← List.reverse_reverse (l.dropWhile isPyWs)]
      rw [List.reverse_prefix]
      exact List.dropWhile_suffix isPyWs
    rw [hqpre.head hne]
    exact List.head_dropWhile_not isPyWs l _
  rw [hdq, List.reverse_reverse]
  have hdq2 : ((l.dropWhile isPyWs).reverse.dropWhile isPyWs).dropWhile isPyWs
      = (l.dropWhile isPyWs).reverse.dropWhile isPyWs := by
    apply dropWhile_eq_self_of_head
    intro hne
    exact List.head_dropWhile_not isPyWs (l.dropWhile isPyWs).reverse _
  rw [hdq2]

theorem pstrip_mk_idem (l : List Char) :
    pstrip ⟨pstripL l⟩ = (⟨pstripL l⟩ : String) := by
  show (⟨pstripL (pstripL l)⟩ : String) = ⟨pstripL l⟩
  rw [pstripL_idem]

/-- Full characterisation of a successful `matchCmd`. -/
theorem matchCmd_spec {cs k v rest : List Char}
    (h : matchCmd cs = some (k, v, rest)) :
    k ≠ [] ∧ (∀ x ∈ k, x ≠ ':') ∧ v ≠ [] ∧ (∀ x ∈ v, x ≠ ']') ∧
      cs = '[' :: (k ++ ':' :: (v ++ ']' :: rest)) := by
  match cs with
  | [] => simp [matchCmd] at h
  | c :: t =>
    simp only [matchCmd] at h
    split at h
    · rename_i hc
      split at h
      · exact absurd h (by simp)
      · rename_i c2 r2 hd
        split at h
        · exact absurd h (by simp)
        · rename_i hk
          split at h
          · exact absurd h (by simp)
          · rename_i c3 r4 hd2
            split at h
            · exact absurd h (by simp)
            · rename_i hv
              simp only [Option.some.injEq, Prod.mk.injEq] at h
              obtain ⟨hkk, hvv, hr⟩ := h
              subst hkk; subst hvv; subst hr
              have hc2 : c2 = ':' := by
                have := dropWhile_head_false hd (by simp)
                simp at this
                exact this
              have hc3 : c3 = ']' := by
                have := dropWhile_head_false hd2 (by simp)
                simp at this
                exact this
              subst hc2; subst hc3
              refine ⟨hk, ?_, hv, ?_, ?_⟩
              · intro x hx
                have := List.mem_takeWhile_imp hx
                simpa using this
              · intro x hx
                have := List.mem_takeWhile_imp hx
                simpa using this
              · have ht : t = t.takeWhile (fun x => x ≠ ':') ++ (':' :: r2) := by
                  conv_lhs =>
                    rw [← List.takeWhile_append_dropWhile (fun x => x ≠ ':') t]
                  rw [hd]
                have hr2 : r2 = r2.takeWhile (fun x => x ≠ ']') ++ (']' :: r4) := by
                  conv_lhs =>
                    rw [← List.takeWhile_append_dropWhile (fun x => x ≠ ']') r2]
                  rw [hd2]
                rw [hc]
                conv_lhs => rw [ht, hr2]
    · exact absurd h (by simp)

/-- A well-formed `[key:value]` block at the head of the input always
matches, yielding exactly that key and value. -/
theorem matchCmd_block {k v r : List Char}
    (hk : k ≠ []) (hkc : ∀ x ∈ k, x ≠ ':')
    (hv : v ≠ []) (hvc : ∀ x ∈ v, x ≠ ']') :
    matchCmd ('[' :: (k ++ ':' :: (v ++ ']' :: r))) = some (k, v, r) := by
  have htk : (k ++ ':' :: (v ++ ']' :: r)).takeWhile (fun x => x ≠ ':') = k := by
    rw [List.takeWhile_append]
    have : k.takeWhile (fun x => x ≠ ':') = k :=
      List.takeWhile_eq_self_iff.mpr (by intro x hx; simpa using hkc x hx)
    rw [this]
    simp [List.takeWhile]
  have hdk : (k ++ ':' :: (v ++ ']' :: r)).dropWhile (fun x => x ≠ ':') =
      ':' :: (v ++ ']' :: r) := by
    rw [List.dropWhile_append]
    have : k.dropWhile (fun x => x ≠ ':') = [] := by
      rw [List.dropWhile_eq_nil_iff]
      intro x hx; simpa using hkc x hx
    rw [this]
    simp [List.dropWhile]
  have htv : (v ++ ']' :: r).takeWhile (fun x => x ≠ ']') = v := by
    rw [List.takeWhile_append]
    have : v.takeWhile (fun x => x ≠ ']') = v :=
      List.takeWhile_eq_self_iff.mpr (by intro x hx; simpa using hvc x hx)
    rw [this]
    simp [List.takeWhile]
  have hdv : (v ++ ']' :: r).dropWhile (fun x => x ≠ ']') = ']' :: r := by
    rw [List.dropWhile_append]
    have : v.dropWhile (fun x => x ≠ ']') = [] := by
      rw [List.dropWhile_eq_nil_iff]
      intro x hx; simpa using hvc x hx
    rw [this]
    simp [List.dropWhile]
  simp only [matchCmd, if_pos rfl, hdk, htk, hdv, htv]
  simp [hk, hv]

/-- Scanning a `[`-free chunk copies it verbatim and scans the tail. -/
theorem scanAttachy_append_nolb (l r : List Char) (h : ∀ c ∈ l, c ≠ '[') :
    scanAttachy (l ++ r) = (l ++ (scanAttachy r).1, (scanAttachy r).2) := by
  induction l with
  | nil => simp
  | cons c l' ih =>
    have hc : c ≠ '[' := h c (by simp)
    rw [List.cons_append,
      scanAttachy_cons_nomatch (matchCmd_none_of_head_ne _ hc),
      ih (fun x hx => h x (by simp [hx]))]
    simp

/-- Scanning well-formed emitted blocks recovers exactly the pairs. -/
theorem scanAttachy_emitBlocks (pairs : List (List Char × List Char))
    (h : ∀ kv ∈ pairs, kv.1 ≠ [] ∧ (∀ x ∈ kv.1, x ≠ ':') ∧
      kv.2 ≠ [] ∧ (∀ x ∈ kv.2, x ≠ ']')) :
    scanAttachy (emitBlocks pairs) = ([], pairs) := by
  induction pairs with
  | nil => simp [emitBlocks, scanAttachy_nil]
  | cons kv ps ih =>
    obtain ⟨hk, hkc, hv, hvc⟩ := h kv (by simp)
    have hblk : emitBlocks (kv :: ps) =
        '[' :: (kv.1 ++ ':' :: (kv.2 ++ ']' :: emitBlocks ps)) := by
      simp [emitBlocks]
    rw [hblk, scanAttachy_cons_match (matchCmd_block hk hkc hv hvc),
      ih (fun x hx => h x (by simp [hx]))]

/-- When the scan finds no command, the remainder is the whole input. -/
theorem scanGo_no_cmds : ∀ (fuel : Nat) (l : List Char),
    (scanGo fuel l).2 = [] → (scanGo fuel l).1 = l := by
  intro fuel
  induction fuel with
  | zero => intro l _; simp [scanGo]
  | succ f ih =>
    intro l hl
    match l with
    | [] => simp [scanGo]
    | c :: cs =>
      simp only [scanGo] at hl ⊢
      cases hm : matchCmd (c :: cs) with
      | some kvr =>
        obtain ⟨k, v, rest⟩ := kvr
        rw [hm] at hl
        simp at hl
      | none =>
        rw [hm] at hl
        simp only at hl
        dsimp only
        rw [ih cs hl]

theorem scanAttachy_no_cmds (l : List Char) (h : (scanAttachy l).2 = []) :
    (scanAttachy l).1 = l :=
  scanGo_no_cmds l.length l h

/-- Every raw pair the scan produces is a nonempty colon-free key and a
nonempty `]`-free value. -/
theorem scanGo_pairs_inv : ∀ (fuel : Nat) (l : List Char),
    ∀ kv ∈ (scanGo fuel l).2, kv.1 ≠ [] ∧ (∀ x ∈ kv.1, x ≠ ':') ∧
      kv.2 ≠ [] ∧ (∀ x ∈ kv.2, x ≠ ']') := by
  intro fuel
  induction fuel with
  | zero => intro l kv hkv; simp [scanGo] at hkv
  | succ f ih =>
    intro l kv hkv
    match l with
    | [] => simp [scanGo] at hkv
    | c :: cs =>
      simp only [scanGo] at hkv
      cases hm : matchCmd (c :: cs) with
      | some kvr =>
        obtain ⟨k, v, rest⟩ := kvr
        rw [hm] at hkv
        simp only [List.mem_cons] at hkv
        cases hkv with
        | inl heq =>
          subst heq
          obtain ⟨h1, h2, h3, h4, -⟩ := matchCmd_spec hm
          exact ⟨h1, h2, h3, h4⟩
        | inr hmem => exact ih rest kv hmem
      | none =>
        rw [hm] at hkv
        exact ih cs kv hkv

theorem scanAttachy_pairs_inv (l : List Char) :
    ∀ kv ∈ (scanAttachy l).2, kv.1 ≠ [] ∧ (∀ x ∈ kv.1, x ≠ ':') ∧
      kv.2 ≠ [] ∧ (∀ x ∈ kv.2, x ≠ ']') :=
  scanGo_pairs_inv l.length l

/-! ### Dict lemmas (Python dict semantics) -/

theorem dlookup_nil {β : Type} (k : String) :
    dlookup ([] : List (String × β)) k = none := rfl

theorem dlookup_cons_pos {β : Type} {p : String × β} {d : List (String × β)}
    {k : String} (h : p.1 = k) : dlookup (p :: d) k = some p.2 := by
  unfold dlookup
  rw [List.find?_cons_of_pos _ (by simp [h])]

theorem dlookup_cons_neg {β : Type} {p : String × β} {d : List (String × β)}
    {k : String} (h : ¬ p.1 = k) : dlookup (p :: d) k = dlookup d k := by
  unfold dlookup
  rw [List.find?_cons_of_neg _ (by simp [h])]

theorem dlookup_map_overwrite {β : Type} {d : List (String × β)}
    {k k' : String} {v : β} (h : k' ≠ k) :
    dlookup (d.map (fun p => if p.1 = k then (k, v) else p)) k' = dlookup d k' := by
  induction d with
  | nil => rfl
  | cons p d' ih =>
    rw [List.map_cons]
    by_cases hp : p.1 = k
    · rw [if_pos hp,
        dlookup_cons_neg (p := (k, v)) (fun hkk => h hkk.symm),
        dlookup_cons_neg (by rw [hp]; exact fun hkk => h hkk.symm)]
      exact ih
    · by_cases hpe : p.1 = k'
      · rw [if_neg hp, dlookup_cons_pos hpe, dlookup_cons_pos hpe]
      · rw [if_neg hp, dlookup_cons_neg hpe, dlookup_cons_neg hpe]
        exact ih

theorem find?_map_overwrite_self {β : Type} {d : List (String × β)}
    {k : String} {v : β} (h : d.any (fun p => p.1 = k)) :
    (d.map (fun p => if p.1 = k then (k, v) else p)).find?
      (fun p => p.1 = k) = some (k, v) := by
  induction d with
  | nil => simp at h
  | cons p d' ih =>
    rw [List.map_cons]
    by_cases hp : p.1 = k
    · rw [if_pos hp, List.find?_cons_of_pos _ (by simp)]
    · rw [if_neg hp, List.find?_cons_of_neg _ (by simp [hp])]
      apply ih
      simp only [List.any_cons] at h
      simpa [hp] using h

theorem dlookup_append_ne {β : Type} (d : List (String × β)) {k k' : String}
    (v : β) (h : ¬ k = k') : dlookup (d ++ [(k, v)]) k' = dlookup d k' := by
  induction d with
  | nil =>
    simp only [List.nil_append]
    rw [dlookup_cons_neg h]
  | cons p d' ih =>
    by_cases hp : p.1 = k'
    · rw [List.cons_append, dlookup_cons_pos hp, dlookup_cons_pos hp]
    · rw [List.cons_append, dlookup_cons_neg hp, dlookup_cons_neg hp]
      exact ih

theorem dlookup_dictSet_self {β : Type} (d : List (String × β)) (k : String)
    (v : β) : dlookup (dictSet d k v) k = some v := by
  unfold dictSet
  by_cases h : d.any (fun p => p.1 = k)
  · rw [if_pos h]
    unfold dlookup
    rw [find?_map_overwrite_self h]
  · rw [if_neg h]
    unfold dlookup
    rw [List.find?_append]
    have hnone : d.find? (fun p => decide (p.1 = k)) = none := by
      rw [List.find?_eq_none]
      intro x hx
      simp only [List.any_eq_true] at h
      intro hc
      simp only [decide_eq_true_eq] at hc
      exact h ⟨x, hx, by simp [hc]⟩
    rw [hnone]
    simp [List.find?]

theorem dlookup_dictSet_ne {β : Type} (d : List (String × β)) {k k' : String}
    (v : β) (h : k' ≠ k) :
    dlookup (dictSet d k v) k' = dlookup d k' := by
  unfold dictSet
  by_cases hany : d.any (fun p => p.1 = k)
  · rw [if_pos hany]
    exact dlookup_map_overwrite h
  · rw [if_neg hany]
    exact dlookup_append_ne d v (fun hkk => h hkk.symm)

theorem lastVal_acc (ps : List (String × String)) (k : String) :
    ∀ a : Option String,
      ps.foldl (fun acc p => if p.1 = k then some p.2 else acc) a =
        match lastVal ps k with
        | some v => some v
        | none => a := by
  induction ps with
  | nil => intro a; simp [lastVal]
  | cons p ps' ih =>
    intro a
    simp only [lastVal, List.foldl_cons] at ih ⊢
    by_cases hp : p.1 = k
    · rw [if_pos hp, if_pos hp, ih (some p.2)]
      cases hL : ps'.foldl (fun acc p => if p.1 = k then some p.2 else acc) none with
      | some v => rfl
      | none => rfl
    · rw [if_neg hp, if_neg hp]
      exact ih a

theorem dlookup_foldl_dictSet (ps : List (String × String)) :
    ∀ (d : List (String × String)) (k : String),
      dlookup (ps.foldl (fun d kv => dictSet d kv.1 kv.2) d) k =
        match lastVal ps k with
        | some v => some v
        | none => dlookup d k := by
  induction ps with
  | nil => intro d k; simp [lastVal]
  | cons p ps' ih =>
    intro d k
    simp only [List.foldl_cons]
    rw [ih (dictSet d p.1 p.2) k]
    by_cases hp : p.1 = k
    · subst hp
      rw [dlookup_dictSet_self]
      have hRHS : lastVal (p :: ps') p.1 =
          ps'.foldl (fun acc q => if q.1 = p.1 then some q.2 else acc)
            (some p.2) := by
        simp [lastVal]
      rw [hRHS, lastVal_acc ps' p.1 (some p.2)]
      cases lastVal ps' p.1 with
      | some v => rfl
      | none => rfl
    · rw [dlookup_dictSet_ne d p.2 (fun hkk => hp hkk.symm)]
      have hRHS : lastVal (p :: ps') k = lastVal ps' k := by
        simp [lastVal, hp]
      rw [hRHS]

theorem dictKeys_dictSet_of_any {β : Type} {d : List (String × β)}
    {k : String} {v : β} (h : d.any (fun p => p.1 = k)) :
    dictKeys (dictSet d k v) = dictKeys d := by
  unfold dictSet
  rw [if_pos h]
  unfold dictKeys
  rw [List.map_map]
  apply List.map_congr_left
  intro p _
  by_cases hp : p.1 = k
  · simp [hp]
  · simp [hp]

theorem dictSet_of_not_any {β : Type} {d : List (String × β)} {k : String}
    {v : β} (h : ¬ d.any (fun p => p.1 = k)) : dictSet d k v = d ++ [(k, v)] := by
  unfold dictSet
  rw [if_neg h]

theorem any_key_iff_mem_dictKeys {β : Type} (d : List (String × β))
    (k : String) : d.any (fun p => p.1 = k) ↔ k ∈ dictKeys d := by
  unfold dictKeys
  simp only [List.any_eq_true, List.mem_map, decide_eq_true_eq]

theorem dictKeys_nodup_dictSet {β : Type} {d : List (String × β)}
    {k : String} {v : β} (h : (dictKeys d).Nodup) :
    (dictKeys (dictSet d k v)).Nodup := by
  by_cases hany : d.any (fun p => p.1 = k)
  · rw [dictKeys_dictSet_of_any hany]; exact h
  · rw [dictSet_of_not_any hany]
    unfold dictKeys
    rw [List.map_append, List.nodup_append]
    refine ⟨h, List.nodup_singleton k, ?_⟩
    intro a ha hb
    simp only [List.map_cons, List.map_nil, List.mem_singleton] at hb
    subst hb
    exact hany ((any_key_iff_mem_dictKeys d a).mpr ha)

theorem foldl_dictSet_nodup {β : Type} (ps : List (String × β)) :
    ∀ d : List (String × β), (dictKeys d).Nodup →
      (dictKeys (ps.foldl (fun d kv => dictSet d kv.1 kv.2) d)).Nodup := by
  induction ps with
  | nil => intro d h; exact h
  | cons p ps' ih =>
    intro d h
    simp only [List.foldl_cons]
    exact ih _ (dictKeys_nodup_dictSet h)

theorem foldl_dictSet_fresh {β : Type} (ps : List (String × β)) :
    ∀ d : List (String × β), (ps.map Prod.fst).Nodup →
      (∀ k ∈ ps.map Prod.fst, k ∉ dictKeys d) →
      ps.foldl (fun d kv => dictSet d kv.1 kv.2) d = d ++ ps := by
  induction ps with
  | nil => intro d _ _; simp
  | cons p ps' ih =>
    intro d hnd hfresh
    simp only [List.foldl_cons]
    have hnotany : ¬ d.any (fun q => q.1 = p.1) := by
      intro hany
      exact hfresh p.1 (by simp) ((any_key_iff_mem_dictKeys d p.1).mp hany)
    rw [dictSet_of_not_any hnotany]
    rw [ih (d ++ [(p.1, p.2)]) (by simpa using hnd.of_cons) ?_]
    · simp
    · intro k hk
      unfold dictKeys
      rw [List.map_append, List.mem_append]
      rintro (hkd | hkp)
      · exact hfresh k (by simp [hk]) hkd
      · simp only [List.map_cons, List.map_nil, List.mem_singleton] at hkp
        subst hkp
        simp only [List.map_cons, List.nodup_cons] at hnd
        exact hnd.1 hk

theorem dictSet_all {β : Type} {P : String × β → Prop} {d : List (String × β)}
    {k : String} {v : β} (hd : ∀ x ∈ d, P x) (hkv : P (k, v)) :
    ∀ x ∈ dictSet d k v, P x := by
  unfold dictSet
  by_cases hany : d.any (fun p => p.1 = k)
  · rw [if_pos hany]
    intro x hx
    rw [List.mem_map] at hx
    obtain ⟨p, hp, he⟩ := hx
    by_cases hpk : p.1 = k
    · rw [if_pos hpk] at he; subst he; exact hkv
    · rw [if_neg hpk] at he; subst he; exact hd p hp
  · rw [if_neg hany]
    intro x hx
    rw [List.mem_append] at hx
    cases hx with
    | inl hxd => exact hd x hxd
    | inr hxk => rw [List.mem_singleton] at hxk; subst hxk; exact hkv

theorem foldl_dictSet_all {β : Type} {P : String × β → Prop}
    (ps : List (String × β)) :
    ∀ d : List (String × β), (∀ x ∈ d, P x) → (∀ x ∈ ps, P x) →
      ∀ x ∈ ps.foldl (fun d kv => dictSet d kv.1 kv.2) d, P x := by
  induction ps with
  | nil => intro d hd _; exact hd
  | cons p ps' ih =>
    intro d hd hp
    simp only [List.foldl_cons]
    exact ih _ (dictSet_all hd (hp p (by simp))) (fun x hx => hp x (by simp [hx]))

theorem dictSet_ne_nil {β : Type} (d : List (String × β)) (k : String)
    (v : β) : dictSet d k v ≠ [] := by
  unfold dictSet
  by_cases hany : d.any (fun p => p.1 = k)
  · rw [if_pos hany]
    intro hc
    rw [List.map_eq_nil_iff] at hc
    subst hc
    simp at hany
  · rw [if_neg hany]
    simp

theorem foldl_dictSet_ne_nil {β : Type} (ps : List (String × β)) :
    ∀ d : List (String × β), ps ≠ [] →
      ps.foldl (fun d kv => dictSet d kv.1 kv.2) d ≠ [] := by
  induction ps with
  | nil => intro d h; exact absurd rfl h
  | cons p ps' ih =>
    intro d _
    simp only [List.foldl_cons]
    by_cases hps : ps' = []
    · subst hps
      simp only [List.foldl_nil]
      exact dictSet_ne_nil d p.1 p.2
    · exact ih _ hps

/-! ### Facts about `parse_attachy` -/

theorem parse_attachy_eq (s : String) (h : s.data ≠ []) :
    parse_attachy s = (⟨pstripL (scanAttachy s.data).1⟩,
      ((stripPairs (scanAttachy s.data).2).foldl
        (fun d kv => dictSet d kv.1 kv.2) [])) := by
  unfold parse_attachy
  rw [if_neg h]

theorem parse_attachy_path_strip (s : String) :
    pstrip (parse_attachy s).1 = (parse_attachy s).1 := by
  by_cases h : s.data = []
  · unfold parse_attachy
    rw [if_pos h]
    rfl
  · rw [parse_attachy_eq s h]
    exact pstrip_mk_idem _

theorem parse_attachy_cmds_inv (s : String) :
    ∀ kv ∈ (parse_attachy s).2,
      pstrip kv.1 = kv.1 ∧ (∀ x ∈ kv.1.data, x ≠ ':') ∧
      pstrip kv.2 = kv.2 ∧ (∀ x ∈ kv.2.data, x ≠ ']') := by
  by_cases h : s.data = []
  · unfold parse_attachy
    rw [if_pos h]
    intro kv hkv
    simp at hkv
  · rw [parse_attachy_eq s h]
    intro kv hkv
    refine foldl_dictSet_all
      (P := fun kv => pstrip kv.1 = kv.1 ∧ (∀ x ∈ kv.1.data, x ≠ ':') ∧
        pstrip kv.2 = kv.2 ∧ (∀ x ∈ kv.2.data, x ≠ ']'))
      _ [] (by simp) ?_ kv hkv
    intro x hx
    unfold stripPairs at hx
    rw [List.mem_map] at hx
    obtain ⟨q, hq, he⟩ := hx
    obtain ⟨-, hkc, -, hvc⟩ := scanAttachy_pairs_inv s.data q hq
    subst he
    refine ⟨pstrip_mk_idem _, ?_, pstrip_mk_idem _, ?_⟩
    · intro y hy; exact hkc y (mem_pstripL hy)
    · intro y hy; exact hvc y (mem_pstripL hy)

theorem parse_attachy_keys_nodup (s : String) :
    (dictKeys (parse_attachy s).2).Nodup := by
  by_cases h : s.data = []
  · unfold parse_attachy
    rw [if_pos h]
    simp [dictKeys]
  · rw [parse_attachy_eq s h]
    exact foldl_dictSet_nodup _ [] (by simp [dictKeys])

theorem parse_attachy_no_cmds (s : String) (h : (parse_attachy s).2 = []) :
    (parse_attachy s).1 = pstrip s := by
  by_cases hs : s.data = []
  · unfold parse_attachy
    rw [if_pos hs]
    unfold pstrip
    rw [hs]
    rfl
  · rw [parse_attachy_eq s hs] at h ⊢
    simp only at h ⊢
    have hps : stripPairs (scanAttachy s.data).2 = [] := by
      by_contra hne
      exact foldl_dictSet_ne_nil _ [] hne h
    have hpairs : (scanAttachy s.data).2 = [] := by
      unfold stripPairs at hps
      exact List.map_eq_nil_iff.mp hps
    rw [scanAttachy_no_cmds s.data hpairs]
    rfl

/-- Any `(path, commands)` pair satisfying the parser's output invariants
re-parses from its emission, provided the path has no `[` and no key or
value is empty. -/
theorem parse_emit_of_invariants (p : String) (d : List (String × String))
    (hp1 : pstrip p = p)
    (hd : ∀ kv ∈ d, pstrip kv.1 = kv.1 ∧ (∀ x ∈ kv.1.data, x ≠ ':') ∧
          pstrip kv.2 = kv.2 ∧ (∀ x ∈ kv.2.data, x ≠ ']'))
    (hnd : (dictKeys d).Nodup)
    (hpath : ∀ c ∈ p.data, c ≠ '[')
    (hne : ∀ kv ∈ d, kv.1 ≠ "" ∧ kv.2 ≠ "") :
    parse_attachy (emit_attachy p d) = (p, d) := by
  have hdata : (emit_attachy p d).data =
      p.data ++ emitBlocks (d.map (fun kv => (kv.1.data, kv.2.data))) := rfl
  by_cases hz : (emit_attachy p d).data = []
  · have hz' := hz
    rw [hdata, List.append_eq_nil] at hz'
    obtain ⟨hzp, hzb⟩ := hz'
    have hdnil : d = [] := by
      cases d with
      | nil => rfl
      | cons kv d' =>
        exfalso
        simp [emitBlocks] at hzb
    subst hdnil
    have hpempty : p = "" := String.ext hzp
    subst hpempty
    unfold parse_attachy
    rw [if_pos hz]
  · rw [parse_attachy_eq _ hz]
    have hinv : ∀ kv ∈ d.map (fun kv => (kv.1.data, kv.2.data)),
        kv.1 ≠ [] ∧ (∀ x ∈ kv.1, x ≠ ':') ∧ kv.2 ≠ [] ∧ (∀ x ∈ kv.2, x ≠ ']') := by
      intro kv hkv
      rw [List.mem_map] at hkv
      obtain ⟨q, hq, he⟩ := hkv
      subst he
      obtain ⟨-, hkc, -, hvc⟩ := hd q hq
      obtain ⟨hqk, hqv⟩ := hne q hq
      refine ⟨?_, hkc, ?_, hvc⟩
      · intro hc; exact hqk (String.ext hc)
      · intro hc; exact hqv (String.ext hc)
    have hscan : scanAttachy (emit_attachy p d).data =
        (p.data, d.map (fun kv => (kv.1.data, kv.2.data))) := by
      rw [hdata,
        scanAttachy_append_nolb p.data _ hpath,
        scanAttachy_emitBlocks _ hinv]
      simp
    rw [hscan]
    simp only
    have hstrip : stripPairs (d.map (fun kv => (kv.1.data, kv.2.data))) = d := by
      unfold stripPairs
      rw [List.map_map]
      have : ∀ kv ∈ d,
          ((fun kv => ((⟨pstripL kv.1⟩ : String), (⟨pstripL kv.2⟩ : String))) ∘
            (fun kv => (kv.1.data, kv.2.data))) kv = id kv := by
        intro kv hkv
        obtain ⟨hk1, -, hk2, -⟩ := hd kv hkv
        show ((pstrip kv.1, pstrip kv.2) : String × String) = kv
        rw [hk1, hk2]
      rw [List.map_congr_left this, List.map_id]
    rw [hstrip]
    have hfold : d.foldl (fun d kv => dictSet d kv.1 kv.2) [] = d := by
      rw [foldl_dictSet_fresh d [] hnd (by simp [dictKeys])]
      simp
    rw [hfold]
    have hpp : (⟨pstripL p.data⟩ : String) = p := hp1
    rw [hpp]

/-- C1 counterexample: on `"[1:2]"` the key `"1"` does not match the claimed
grammar `[A-Za-z_][A-Za-z0-9_]*`, so per the claim the token should remain
in the path verbatim; the code nevertheless extracts it as a command and
empties the path. -/
theorem C1_counterexample :
    parse_attachy "[1:2]" = ("", [("1", "2")]) ∧ isIdentKey "1" = false := by
  decide

/-- C1 (amended): the parser extracts the non-overlapping `[key:value]`
commands in which the key is any nonempty run of non-`:` characters and the
value any nonempty run of non-`]` characters, both then stripped; keys never
contain `:`, values never contain `]`, both are strip-fixed, the path is the
trimmed remainder (so when no command is found it is the whole input,
trimmed), and for duplicate keys the last occurrence wins. -/
theorem C1_parser_grammar : ∀ s : String,
    pstrip (parse_attachy s).1 = (parse_attachy s).1 ∧
    (∀ kv ∈ (parse_attachy s).2,
       (∀ x ∈ kv.1.data, x ≠ ':') ∧ pstrip kv.1 = kv.1 ∧
       (∀ x ∈ kv.2.data, x ≠ ']') ∧ pstrip kv.2 = kv.2) ∧
    ((parse_attachy s).2 = [] → (parse_attachy s).1 = pstrip s) ∧
    (∀ k, dlookup (parse_attachy s).2 k =
       lastVal (stripPairs (scanAttachy s.data).2) k) := by
  intro s
  refine ⟨parse_attachy_path_strip s, ?_, parse_attachy_no_cmds s, ?_⟩
  · intro kv hkv
    obtain ⟨h1, h2, h3, h4⟩ := parse_attachy_cmds_inv s kv hkv
    exact ⟨h2, h1, h4, h3⟩
  · intro k
    by_cases h : s.data = []
    · unfold parse_attachy
      rw [if_pos h, h]
      rfl
    · rw [parse_attachy_eq s h]
      simp only
      rw [dlookup_foldl_dictSet (stripPairs (scanAttachy s.data).2) [] k]
      cases lastVal (stripPairs (scanAttachy s.data).2) k with
      | some v => rfl
      | none => rfl

/-- C1 witness: the amended statement applied at concrete inputs; the
duplicate key `k` resolves to its last value, and a command-free input is
returned verbatim (trimmed). -/
theorem C1_witness :
    dlookup (parse_attachy "a[k:1][k:2]").2 "k" = some "2" ∧
    (parse_attachy " a [x] ").1 = pstrip " a [x] " := by
  constructor
  · rw [(C1_parser_grammar "a[k:1][k:2]").2.2.2 "k"]
    decide
  · exact (C1_parser_grammar " a [x] ").2.2.1 (by decide)

/-- C8 counterexample: `"[k:v]a[b"` parses to path `"a[b"` and commands
`{k: v}`, but re-emitting and re-parsing yields path `"a"` and commands
`{b[k: v}` — the round trip changes the pair. -/
theorem C8_counterexample :
    parse_attachy "[k:v]a[b" = ("a[b", [("k", "v")]) ∧
    parse_attachy (emit_attachy "a[b" [("k", "v")]) = ("a", [("b[k", "v")]) ∧
    parse_attachy (emit_attachy (parse_attachy "[k:v]a[b").1
        (parse_attachy "[k:v]a[b").2) ≠ parse_attachy "[k:v]a[b" := by
  refine ⟨by decide, by decide, ?_⟩
  decide

/-- C8 (amended): parsing is total (the parser is a function on all
strings); the concrete S1 example holds; and round-tripping
`(path, commands)` through emission re-parses to the same pair whenever the
path contains no `[` and no command key or value is empty (the
counterexample shows the restriction is necessary). -/
theorem C8_parse_total_roundtrip :
    parse_attachy "report.pdf[pages:1-3][format:plain][images:false]" =
      ("report.pdf", [("pages", "1-3"), ("format", "plain"), ("images", "false")]) ∧
    ∀ s : String,
      (∀ c ∈ (parse_attachy s).1.data, c ≠ '[') →
      (∀ kv ∈ (parse_attachy s).2, kv.1 ≠ "" ∧ kv.2 ≠ "") →
      parse_attachy (emit_attachy (parse_attachy s).1 (parse_attachy s).2) =
        parse_attachy s := by
  refine ⟨by decide, ?_⟩
  intro s hpath hne
  rw [parse_emit_of_invariants (parse_attachy s).1 (parse_attachy s).2
    (parse_attachy_path_strip s) (parse_attachy_cmds_inv s)
    (parse_attachy_keys_nodup s) hpath hne]

/-- C8 witness: the round trip at the S1 input. -/
theorem C8_witness :
    parse_attachy (emit_attachy
        (parse_attachy "report.pdf[pages:1-3][format:plain][images:false]").1
        (parse_attachy "report.pdf[pages:1-3][format:plain][images:false]").2) =
      parse_attachy "report.pdf[pages:1-3][format:plain][images:false]" :=
  C8_parse_total_roundtrip.2 "report.pdf[pages:1-3][format:plain][images:false]"
    (by decide) (by decide)

/-- C10: `str(attachment)` returns the text buffer when it is nonempty and
otherwise the placeholder `[No text content from <path>]`; it is a total
function of `text` and `path` only, so it never raises and never exposes
image (or audio/metadata) data. -/
theorem C10_str_conversion : ∀ a : Attachment,
    (a.text ≠ "" → a.toStr = a.text) ∧
    (a.text = "" → a.toStr = "[No text content from " ++ a.path ++ "]") ∧
    (∀ b : Attachment, b.text = a.text → b.path = a.path → b.toStr = a.toStr) := by
  intro a
  refine ⟨?_, ?_, ?_⟩
  · intro h
    unfold Attachment.toStr
    rw [if_pos h]
  · intro h
    unfold Attachment.toStr
    rw [if_neg (by simp [h])]
  · intro b hbt hbp
    unfold Attachment.toStr
    rw [hbt, hbp]

/-- C10 witness at concrete attachments. -/
theorem C10_str_conversion_witness :
    ({ attach "doc.pdf" with text := "hi" }.toStr = "hi") ∧
    (attach "doc.pdf").toStr = "[No text content from doc.pdf]" := by
  constructor
  · exact (C10_str_conversion { attach "doc.pdf" with text := "hi" }).1 (by decide)
  · have h := (C10_str_conversion (attach "doc.pdf")).2.1 (by decide)
    rw [h]
    decide

/-- C7 counterexample: folding the empty collection returns the empty
attachment with *empty* metadata, not `{collection_size: 0,
combined_from: []}` as the claim requires of every fold. -/
theorem C7_counterexample :
    (to_attachment []).metadata = [] ∧
    (to_attachment []).metadata ≠
      [("collection_size", .i 0), ("combined_from", .strs [])] := by
  decide

/-- C7 (amended): folding a *nonempty* collection concatenates the nonempty
texts with blank-line separators, concatenates the image lists in order,
sets metadata to exactly `{collection_size, combined_from}`, and leaves the
path (and commands, payload, pipeline) empty; the empty collection folds to
the empty attachment with empty metadata. -/
theorem C7_fold_collection : ∀ atts : List Attachment, atts ≠ [] →
    to_attachment atts =
      { path := "", commands := [], obj := none,
        text := joinSep "\n\n" ((atts.map (fun a => a.text)).filter (fun t => t ≠ "")),
        images := (atts.map (fun a => a.images)).flatten,
        audio := (atts.map (fun a => a.audio)).flatten,
        metadata := [("collection_size", .i atts.length),
                     ("combined_from", .strs (atts.map (fun a => a.path)))],
        pipeline := [] } := by
  intro atts h
  unfold to_attachment
  rw [if_neg h]
  rfl

/-- C7 witness: the fold of two concrete attachments. -/
theorem C7_fold_collection_witness :
    to_attachment [{ attach "a.txt" with text := "A", images := ["i1"] },
                   { attach "b.txt" with text := "", images := ["i2", "i3"] }] =
      { path := "", commands := [], obj := none, text := "A",
        images := ["i1", "i2", "i3"], audio := [],
        metadata := [("collection_size", .i 2),
                     ("combined_from", .strs ["a.txt", "b.txt"])],
        pipeline := [] } := by
  rw [C7_fold_collection _ (by decide)]
  decide

/-- C2 counterexample: `openai` is a registered adapter, yet it is not in
the fixed reducer-name set, so applying it to a two-element collection
vectorizes instead of reducing to a single result. -/
theorem C2_counterexample :
    "openai" ∈ registered_adapters ∧
    is_reducer (Operation.mk (ρ := Attachment) (some "openai") some
      (fun _ => attach "")) = false ∧
    collection_or [attach "a", attach "b"]
        (Operation.mk (ρ := Attachment) (some "openai") some (fun _ => attach "")) =
      .vectorized [attach "a", attach "b"] := by
  refine ⟨by decide, by decide, ?_⟩
  rw [collection_or, if_neg (by decide)]
  decide

theorem filterMap_total_eq_map {f : Attachment → Option Attachment}
    (atts : List Attachment) (h : ∀ a ∈ atts, (f a).isSome) :
    atts.filterMap f = atts.map (fun a => (f a).getD a) := by
  induction atts with
  | nil => rfl
  | cons a l ih =>
    have ha := h a (by simp)
    rw [List.filterMap_cons, List.map_cons]
    cases hf : f a with
    | none => rw [hf] at ha; simp at ha
    | some b =>
      dsimp only
      simp only [Option.getD_some]
      rw [ih (fun x hx => h x (by simp [hx]))]

/-- C2 (amended): a verb is treated as a reducer exactly when its name is
one of `tile_images`, `combine_images`, `merge_text`, `claude`,
`openai_chat`, `openai_response` (the adapters `openai` and `dspy` are
*not* reducers); a reducer is applied to the set as a whole, producing the
single reduction result; any other verb that returns an artifact for every
element is applied elementwise, and the output preserves the input's
length and order. -/
theorem C2_vectorize_reduce : ∀ (ρ : Type) (op : Operation ρ)
    (atts : List Attachment),
    (is_reducer op = true ↔ ∃ n, op.name = some n ∧ n ∈ reducing_operations) ∧
    (is_reducer op = true → collection_or atts op = .reduced (op.onColl atts)) ∧
    (is_reducer op = false → (∀ a ∈ atts, (op.onAtt a).isSome) →
      collection_or atts op =
        .vectorized (atts.map (fun a => (op.onAtt a).getD a)) ∧
      (atts.map (fun a => (op.onAtt a).getD a)).length = atts.length) := by
  intro ρ op atts
  refine ⟨?_, ?_, ?_⟩
  · constructor
    · intro h
      unfold is_reducer at h
      match hn : op.name with
      | some n =>
        rw [hn] at h
        exact ⟨n, rfl, by simpa using h⟩
      | none => rw [hn] at h; simp at h
    · rintro ⟨n, hn, hmem⟩
      unfold is_reducer
      rw [hn]
      simpa using hmem
  · intro h
    unfold collection_or
    rw [if_pos h]
  · intro h htot
    constructor
    · unfold collection_or
      rw [if_neg (by simp [h]), filterMap_total_eq_map atts htot]
    · exact List.length_map _ _

/-- C2 witness: a non-reducer named verb maps over a concrete two-element
collection preserving length and order; a reducer name reduces. -/
theorem C2_vectorize_reduce_witness :
    collection_or [attach "a", attach "b"]
        (Operation.mk (ρ := Attachment) (some "resize_images")
          (fun a => some { a with text := a.text ++ "!" }) (fun _ => attach "")) =
      .vectorized [{ attach "a" with text := "!" }, { attach "b" with text := "!" }] ∧
    collection_or [attach "a"]
        (Operation.mk (ρ := Attachment) (some "claude") some
          (fun l => to_attachment l)) =
      .reduced (to_attachment [attach "a"]) := by
  constructor
  · have h := ((C2_vectorize_reduce Attachment
      (Operation.mk (some "resize_images")
        (fun a => some { a with text := a.text ++ "!" }) (fun _ => attach ""))
      [attach "a", attach "b"]).2.2 (by decide) (by decide)).1
    rw [h]
    decide
  · exact (C2_vectorize_reduce Attachment _ [attach "a"]).2.1 (by decide)

/-- C3: loader invocations through the dispatch wrapper are no-ops when the
payload is already set or when the predicate rejects the artifact, and the
text loader sets the payload exactly when it succeeds: a successful
invocation on a matching, unloaded artifact returns an artifact whose
payload is set (to the read content), and a failing read produces no
artifact at all (the exception propagates), leaving nothing whose payload
could have been set. -/
theorem C3_loader_wrapper : ∀ (read : String → Except String String)
    (att : Attachment),
    (att.obj.isSome → make_loader_wrapper text_match (text_to_string read) att =
      .ok att) ∧
    (text_match att = false →
      make_loader_wrapper text_match (text_to_string read) att = .ok att) ∧
    (att.obj = none → text_match att = true →
      (∀ c, read att.path = .ok c →
        make_loader_wrapper text_match (text_to_string read) att =
          .ok { att with obj := some (.str c), text := c }) ∧
      (∀ a', make_loader_wrapper text_match (text_to_string read) att = .ok a' →
        a'.obj.isSome) ∧
      (∀ e, read att.path = .error e →
        make_loader_wrapper text_match (text_to_string read) att = .error e)) := by
  intro read att
  refine ⟨?_, ?_, ?_⟩
  · intro h
    unfold make_loader_wrapper
    rw [if_pos h]
  · intro h
    unfold make_loader_wrapper
    by_cases hobj : att.obj.isSome
    · rw [if_pos hobj]
    · rw [if_neg hobj, if_neg (by simp [h])]
  · intro hobj hmatch
    have hwrap : make_loader_wrapper text_match (text_to_string read) att =
        text_to_string read att := by
      unfold make_loader_wrapper
      rw [if_neg (by simp [hobj]), if_pos hmatch]
    refine ⟨?_, ?_, ?_⟩
    · intro c hc
      rw [hwrap]
      unfold text_to_string
      rw [hc]
    · intro a' ha'
      rw [hwrap] at ha'
      unfold text_to_string at ha'
      cases hr : read att.path with
      | ok c =>
        rw [hr] at ha'
        simp only [Except.ok.injEq] at ha'
        subst ha'
        rfl
      | error e =>
        rw [hr] at ha'
        simp at ha'
    · intro e he
      rw [hwrap]
      unfold text_to_string
      rw [he]

/-- C3 witness: a concrete read oracle exercising all three clauses. -/
theorem C3_loader_wrapper_witness :
    (make_loader_wrapper text_match
        (text_to_string (fun _ => .ok "content"))
        { attach "notes.txt" with obj := some .dataFrame } =
      .ok { attach "notes.txt" with obj := some .dataFrame }) ∧
    (make_loader_wrapper text_match
        (text_to_string (fun _ => .ok "content")) (attach "photo.png") =
      .ok (attach "photo.png")) ∧
    (make_loader_wrapper text_match
        (text_to_string (fun _ => .ok "content")) (attach "notes.txt") =
      .ok { attach "notes.txt" with
            obj := some (.str "content"),
            text := "content" }) ∧
    (make_loader_wrapper text_match
        (text_to_string (fun _ => .error "missing")) (attach "notes.txt") =
      .error "missing") := by
  refine ⟨?_, ?_, ?_, ?_⟩
  · exact (C3_loader_wrapper (fun _ => .ok "content")
      { attach "notes.txt" with obj := some .dataFrame }).1 (by decide)
  · exact (C3_loader_wrapper (fun _ => .ok "content") (attach "photo.png")).2.1
      (by decide)
  · exact ((C3_loader_wrapper (fun _ => .ok "content") (attach "notes.txt")).2.2
      (by decide) (by decide)).1 "content" rfl
  · exact ((C3_loader_wrapper (fun _ => .error "missing") (attach "notes.txt")).2.2
      (by decide) (by decide)).2.2 "missing" rfl

theorem appendProc_lookup_ne {md : List (String × MetaVal)} {k k' : String}
    {e : ProcEntry} (h : k' ≠ k) :
    mlookup (appendProc md k e) k' = mlookup md k' := by
  unfold appendProc
  cases hm : mlookup md k with
  | none =>
    unfold mlookup
    exact dlookup_append_ne md (.procs [e]) (fun hk => h hk.symm)
  | some v =>
    cases v with
    | procs l =>
      unfold mdictSet mlookup
      exact dlookup_dictSet_ne md (.procs (l ++ [e])) h
    | s v => rfl
    | i v => rfl
    | b v => rfl
    | null => rfl
    | strs v => rfl
    | ints v => rfl
    | ratio a b => rfl

theorem appendProc_mem {md : List (String × MetaVal)} (e : ProcEntry)
    (h : procsWF md "processing") :
    e.operation ∈ processing_ops (appendProc md "processing" e) := by
  unfold procsWF at h
  unfold appendProc processing_ops
  cases h with
  | inl hn =>
    rw [hn]
    have hf : md.find? (fun p => decide (p.1 = "processing")) = none := by
      unfold mlookup dlookup at hn
      cases hf : md.find? (fun p => decide (p.1 = "processing")) with
      | some p => rw [hf] at hn; simp at hn
      | none => rfl
    have : mlookup (md ++ [("processing", MetaVal.procs [e])]) "processing" =
        some (.procs [e]) := by
      unfold mlookup dlookup
      rw [List.find?_append, hf]
      simp [List.find?]
    rw [this]
    simp
  | inr hl =>
    obtain ⟨l, hl⟩ := hl
    rw [hl]
    have : mlookup (mdictSet md "processing" (.procs (l ++ [e]))) "processing" =
        some (.procs (l ++ [e])) := by
      unfold mlookup mdictSet
      exact dlookup_dictSet_self md "processing" _
    rw [this]
    simp

theorem resize_go_processing_lookup
    (decode : String → Except String (Nat × Nat)) (encode : Nat × Nat → String)
    (spec : String) :
    ∀ (imgs resized : List String) (md : List (String × MetaVal)),
      mlookup (resize_images_go decode encode spec imgs resized md).2
          "processing" = mlookup md "processing" := by
  intro imgs
  induction imgs with
  | nil => intro resized md; rfl
  | cons img rest ih =>
    intro resized md
    unfold resize_images_go
    have hne : ("processing" : String) ≠ "processing_errors" := by decide
    by_cases h1 : strStarts img "data:image/" ∧ ¬ pyIn "," img
    · rw [if_pos h1, ih, appendProc_lookup_ne hne]
    · rw [if_neg h1]
      cases hdec : decode (if strStarts img "data:image/" then
          (splitFirst img ',').2 else img) with
      | error e =>
        dsimp only
        rw [ih, appendProc_lookup_ne hne]
      | ok wh =>
        dsimp only
        cases hp : parse_resize_dims spec wh.1 wh.2 with
        | error e =>
          dsimp only
          rw [ih, appendProc_lookup_ne hne]
        | ok dims =>
          dsimp only
          rw [ih]

theorem flatten_tab_length (l : List Char) :
    l.length ≤ ((l.map (fun c =>
      if c = '\t' then [' ', '|', ' '] else [c])).flatten).length := by
  induction l with
  | nil => simp
  | cons c cs ih =>
    rw [List.map_cons, List.flatten_cons, List.length_append, List.length_cons]
    by_cases hc : c = '\t'
    · rw [if_pos hc]
      simp only [List.length_cons, List.length_nil]
      omega
    · rw [if_neg hc]
      simp only [List.length_cons, List.length_nil]
      omega

theorem markdown_pdf_mono (att : Attachment) (pdf : PdfDoc) :
    att.text.length ≤ (markdown_pdf att pdf).text.length ∧
      (markdown_pdf att pdf).images = att.images := by
  rcases hm : md_pdf_pages pdf (pdf_pages_to_process att pdf) "" 0 0 with
    ⟨acc, total, wt, err⟩
  unfold markdown_pdf
  dsimp only
  rw [hm]
  cases err with
  | some e =>
    dsimp only
    constructor
    · simp only [String.length_append]
      omega
    · rfl
  | none =>
    dsimp only
    split
    · constructor
      · simp only [String.length_append]
        omega
      · rfl
    · constructor
      · simp only [String.length_append]
        omega
      · rfl

/-- C4 counterexample: with an image that decodes fine but an invalid
resize specification (`resize_images:ax2`), `refine.resize_images` drops
the image — the images list shrinks from 1 to 0 — while recording only
`resize_images` processing entries, never a `truncate` one. -/
theorem C4_counterexample :
    (resize_images (fun _ => Except.ok (100, 100)) (fun _ => "RES")
        { attach "i.png" with
          commands := [("resize_images", "ax2")], images := ["IMG"] }).images = [] ∧
    ({ attach "i.png" with
       commands := [("resize_images", "ax2")],
       images := ["IMG"] } : Attachment).images.length = 1 ∧
    "truncate" ∉ processing_ops (resize_images (fun _ => Except.ok (100, 100))
        (fun _ => "RES")
        { attach "i.png" with
          commands := [("resize_images", "ax2")], images := ["IMG"] }).metadata := by
  refine ⟨by decide, by decide, by decide⟩

/-- C4 (amended): the embedded modifier, presenter and refiner verbs are
monotone in `text` and `images` — `add_headers`, `format_tables` and the
PDF markdown presenter only grow `text` and never touch `images`; the PDF
image presenter only grows `images` and never touches `text`; the `pages`
modifier touches neither — except for `truncate`, which records a
`processing` entry with `operation = "truncate"` whenever it shrinks the
text, and `resize_images`, which may drop or replace images but always
records a `processing` entry with `operation = "resize_images"`. Loaders
are a further exception: a loader that fires replaces the text buffer
wholesale with the loaded content (so `|text|` may shrink arbitrarily)
while leaving `images` and `metadata` untouched — in particular it records
no `truncate` or `resize_images` processing entry — and a loader that
skips (payload already set, or matcher rejects) returns the artifact
unchanged. -/
theorem C4_monotonicity : ∀ att : Attachment,
    (att.text.length ≤ (add_headers att).text.length ∧
      (add_headers att).images = att.images) ∧
    (att.text.length ≤ (format_tables att).text.length ∧
      (format_tables att).images = att.images) ∧
    (∀ pdf, att.text.length ≤ (markdown_pdf att pdf).text.length ∧
      (markdown_pdf att pdf).images = att.images) ∧
    (∀ render, (images_pdf render att).text = att.text ∧
      att.images.length ≤ (images_pdf render att).images.length) ∧
    (∀ pdf a', pages_pdf att pdf = .ok a' →
      a'.text = att.text ∧ a'.images = att.images) ∧
    (∀ limitArg a', truncate limitArg att = .ok a' →
      a'.images = att.images ∧
      (procsWF att.metadata "processing" → a'.text.length < att.text.length →
        "truncate" ∈ processing_ops a'.metadata)) ∧
    (∀ decode encode, (resize_images decode encode att).text = att.text ∧
      (procsWF att.metadata "processing" →
        "resize_images" ∈
          processing_ops (resize_images decode encode att).metadata)) ∧
    (∀ read a',
      make_loader_wrapper text_match (text_to_string read) att = .ok a' →
      a' = att ∨
        ∃ content, read att.path = .ok content ∧
          a'.text = content ∧ a'.images = att.images ∧
          a'.metadata = att.metadata) := by
  intro att
  refine ⟨?_, ?_, ?_, ?_, ?_, ?_, ?_, ?_⟩
  · unfold add_headers
    by_cases ht : att.text ≠ ""
    · rw [if_pos ht]
      cases hs : pySplit att.text '\n' with
      | nil => exact ⟨le_refl _, rfl⟩
      | cons l0 rest =>
        dsimp only
        by_cases hh : strStarts l0 "#"
        · rw [if_neg (by simp [hh])]
          exact ⟨le_refl _, rfl⟩
        · rw [if_pos (by simp [hh])]
          constructor
          · simp only [String.length_append]
            omega
          · rfl
    · rw [if_neg ht]
      exact ⟨le_refl _, rfl⟩
  · unfold format_tables
    by_cases ht : att.text ≠ ""
    · rw [if_pos ht]
      constructor
      · show att.text.length ≤ _
        have := flatten_tab_length att.text.data
        exact this
      · rfl
    · rw [if_neg ht]
      exact ⟨le_refl _, rfl⟩
  · intro pdf
    exact markdown_pdf_mono att pdf
  · intro render
    unfold images_pdf
    match render with
    | none => exact ⟨rfl, le_refl _⟩
    | some (.error e) => exact ⟨rfl, le_refl _⟩
    | some (.ok pr) =>
      refine ⟨rfl, ?_⟩
      simp
  · intro pdf a' h
    unfold pages_pdf at h
    cases hc : dlookup att.commands "pages" with
    | none =>
      rw [hc] at h
      simp only [Except.ok.injEq] at h
      subst h
      exact ⟨rfl, rfl⟩
    | some spec =>
      rw [hc] at h
      dsimp only at h
      cases hp : parse_pages_spec pdf.pages.length spec with
      | error e =>
        rw [hp] at h
        simp at h
      | ok sel =>
        rw [hp] at h
        dsimp only at h
        simp only [Except.ok.injEq] at h
        subst h
        exact ⟨rfl, rfl⟩
  · intro limitArg a' h
    unfold truncate at h
    cases hl : truncate_limit limitArg att with
    | error e =>
      rw [hl] at h
      simp at h
    | ok limit =>
      rw [hl] at h
      dsimp only at h
      by_cases hcut : att.text ≠ "" ∧ limit < (att.text.length : Int)
      · rw [if_pos hcut] at h
        simp only [Except.ok.injEq] at h
        subst h
        refine ⟨rfl, ?_⟩
        intro hwf _
        exact appendProc_mem _ hwf
      · rw [if_neg hcut] at h
        simp only [Except.ok.injEq] at h
        subst h
        exact ⟨rfl, fun _ hlt => absurd hlt (lt_irrefl _)⟩
  · intro decode encode
    constructor
    · rfl
    · intro hwf
      unfold resize_images
      dsimp only
      apply appendProc_mem
      unfold procsWF at hwf ⊢
      rw [resize_go_processing_lookup]
      exact hwf
  · intro read a' h
    unfold make_loader_wrapper at h
    by_cases hobj : att.obj.isSome
    · rw [if_pos hobj] at h
      simp only [Except.ok.injEq] at h
      exact Or.inl h.symm
    · rw [if_neg hobj] at h
      by_cases hm : text_match att
      · rw [if_pos hm] at h
        unfold text_to_string at h
        cases hr : read att.path with
        | ok content =>
          rw [hr] at h
          simp only [Except.ok.injEq] at h
          subst h
          exact Or.inr ⟨content, rfl, rfl, rfl, rfl⟩
        | error e =>
          rw [hr] at h
          simp at h
      · rw [if_neg hm] at h
        simp only [Except.ok.injEq] at h
        exact Or.inl h.symm

/-- C4 witness: monotonicity of `add_headers` at a concrete attachment; the
truncate exception clause at `truncate(4)` of a 10-character text; and the
loader exception clause at a text loader whose read oracle returns the
1-character content `"x"` on a 10-character text — the loader clause's
right disjunct holds there, so the text is replaced (10 chars shrink to 1)
with metadata untouched. -/
theorem C4_monotonicity_witness :
    (({ attach "t.txt" with text := "0123456789" } : Attachment).text.length ≤
      (add_headers { attach "t.txt" with text := "0123456789" }).text.length) ∧
    "truncate" ∈ processing_ops
      ({ attach "t.txt" with
         text := "0123...",
         metadata := [("processing", MetaVal.procs
           [⟨"truncate", [],
             [("original_length", 7), ("truncated_length", 7)]⟩])] } :
        Attachment).metadata ∧
    (({ attach "t.txt" with obj := some (.str "x"), text := "x" } :
        Attachment).metadata =
      ({ attach "t.txt" with text := "0123456789" } : Attachment).metadata ∧
     ({ attach "t.txt" with obj := some (.str "x"), text := "x" } :
        Attachment).text.length <
      ({ attach "t.txt" with text := "0123456789" } :
        Attachment).text.length) := by
  refine ⟨?_, ?_, ?_⟩
  · exact (C4_monotonicity { attach "t.txt" with text := "0123456789" }).1.1
  · refine ((C4_monotonicity
        { attach "t.txt" with text := "0123456789" }).2.2.2.2.2.1
      (some 4) _ ?_).2 ?_ ?_
    · show truncate (some 4) { attach "t.txt" with text := "0123456789" } = _
      decide
    · exact Or.inl rfl
    · decide
  · have h := (C4_monotonicity
        { attach "t.txt" with text := "0123456789" }).2.2.2.2.2.2.2
      (fun _ => Except.ok "x")
      { attach "t.txt" with obj := some (.str "x"), text := "x" }
      (by decide)
    rcases h with he | ⟨content, hr, ht, _hi, hmeta⟩
    · exact absurd he (by decide)
    · refine ⟨hmeta, ?_⟩
      have hc : "x" = content := by
        simpa using hr
      rw [ht, ← hc]
      decide

/-- C6 counterexample: the spec's S5 image `"aGVsbG8="` has only 8
characters, so the adapter's basic validation (`len(img) > 10`) drops it —
the resulting message contains no image part, contradicting the claimed
content. -/
theorem C6_counterexample :
    claude { attach "" with text := "hello", images := ["aGVsbG8="] }
        "describe" =
      [⟨"user", [.text "describe\n\nhello"]⟩] ∧
    claude { attach "" with text := "hello", images := ["aGVsbG8="] }
        "describe" ≠
      [⟨"user", [.text "describe\n\nhello",
        .image "base64" "image/png" "aGVsbG8="]⟩] := by
  refine ⟨by decide, by decide⟩

/-- C6 (amended): as the claim states but with the adapter's basic
validation added — images of at most 10 characters are dropped.  With a
longer image the S5 shape holds verbatim; in general the adapter emits one
user message, the parameter prompt beats `commands.prompt` whenever it is
nonempty, prompt and text are joined by a blank line into one text part,
data-URL prefixes are stripped at the first comma, and non-data-URL
entries ending in `_placeholder` are skipped. -/
theorem C6_claude_adapter :
    (claude { attach "" with
        text := "hello", images := ["aGVsbG8gbW9uZGUhIQ=="] } "describe" =
      [⟨"user", [.text "describe\n\nhello",
        .image "base64" "image/png" "aGVsbG8gbW9uZGUhIQ=="]⟩]) ∧
    (∀ att prompt, ∃ content, claude att prompt = [⟨"user", content⟩]) ∧
    (∀ att prompt, prompt ≠ "" →
      claude att prompt = claude { att with commands := [] } prompt) ∧
    (∀ att prompt, prompt ≠ "" → att.text ≠ "" →
      ∃ rest, claude att prompt =
        [⟨"user", .text (prompt ++ "\n\n" ++ att.text) :: rest⟩]) ∧
    (∀ img, strStarts img "data:image/" → pyIn "," img → 10 < img.length →
      claude_image_part img =
        some (.image "base64" "image/png" (splitFirst img ',').2)) ∧
    (∀ img, strStarts img "data:image/" = false →
      strEnds img "_placeholder" → claude_image_part img = none) ∧
    (∀ img, img.length ≤ 10 → claude_image_part img = none) := by
  refine ⟨by decide, ?_, ?_, ?_, ?_, ?_, ?_⟩
  · intro att prompt
    unfold claude
    exact ⟨_, rfl⟩
  · intro att prompt h
    unfold claude
    dsimp only
    simp [h]
  · intro att prompt h1 h2
    unfold claude
    dsimp only
    rw [if_pos h1, if_pos (⟨h1, h2⟩ : prompt ≠ "" ∧ att.text ≠ "")]
    exact ⟨_, rfl⟩
  · intro img hd hc hlen
    have hne : img ≠ "" := by
      intro hz
      rw [hz] at hlen
      exact absurd hlen (by decide)
    unfold claude_image_part
    rw [if_pos ⟨hne, hlen⟩, if_pos hd, if_pos hc]
  · intro img hd hp
    by_cases hlen : img ≠ "" ∧ 10 < img.length
    · unfold claude_image_part
      rw [if_pos hlen, if_neg (by simp [hd]), if_pos hp]
    · unfold claude_image_part
      rw [if_neg hlen]
  · intro img hlen
    unfold claude_image_part
    rw [if_neg ?_]
    rintro ⟨-, h10⟩
    omega

/-- C9 counterexample: when PDF text extraction fails, the markdown
presenter appends the error to the *text* buffer and records no metadata
entry at all — in particular no `<name>_error` key — and the artifact's
text is changed, so the claim fails for this presenter. -/
theorem C9_counterexample :
    (markdown_pdf (attach "d.pdf") ⟨[.error "boom"]⟩).metadata = [] ∧
    (markdown_pdf (attach "d.pdf") ⟨[.error "boom"]⟩).text =
      "# PDF Document: d.pdf\n\n*Error extracting PDF text: boom*\n\n" ∧
    (markdown_pdf (attach "d.pdf") ⟨[.error "boom"]⟩).text ≠
      (attach "d.pdf").text := by
  refine ⟨by decide, by decide, by decide⟩

/-- C9 (amended): the PDF *image* presenter behaves as the claim says —
on failure it records `metadata.pdf_images_error` and leaves text, images
and every other metadata key unchanged — but the PDF *markdown* presenter
instead appends `*Error extracting PDF text: ...*` to the text and leaves
the metadata untouched. -/
theorem C9_presenter_errors : ∀ (att : Attachment) (e : String),
    ((images_pdf (some (.error e)) att).text = att.text ∧
     (images_pdf (some (.error e)) att).images = att.images ∧
     mlookup (images_pdf (some (.error e)) att).metadata "pdf_images_error" =
       some (.s ("Error rendering PDF: " ++ e)) ∧
     (∀ k, k ≠ "pdf_images_error" →
       mlookup (images_pdf (some (.error e)) att).metadata k =
         mlookup att.metadata k)) ∧
    (mlookup att.metadata "selected_pages" = none →
      (markdown_pdf att ⟨[.error e]⟩).metadata = att.metadata ∧
      (markdown_pdf att ⟨[.error e]⟩).text =
        att.text ++ "# PDF Document: " ++ att.path ++
          "\n\n*Error extracting PDF text: " ++ e ++ "*\n\n") := by
  intro att e
  constructor
  · refine ⟨rfl, rfl, ?_, ?_⟩
    · show mlookup (mdictSet att.metadata "pdf_images_error"
        (.s ("Error rendering PDF: " ++ e))) "pdf_images_error" = _
      unfold mlookup mdictSet
      exact dlookup_dictSet_self att.metadata "pdf_images_error" _
    · intro k hk
      show mlookup (mdictSet att.metadata "pdf_images_error"
        (.s ("Error rendering PDF: " ++ e))) k = _
      unfold mlookup mdictSet
      exact dlookup_dictSet_ne att.metadata _ hk
  · intro hsel
    have hptp : pdf_pages_to_process att ⟨[.error e]⟩ = [1] := by
      unfold pdf_pages_to_process
      rw [hsel]
      rfl
    have hmd : md_pdf_pages ⟨[.error e]⟩ [1] "" 0 0 = ("", 0, 0, some e) := by
      unfold md_pdf_pages
      rw [if_pos (by refine ⟨by norm_num, ?_⟩; simp)]
      rfl
    unfold markdown_pdf
    dsimp only
    rw [hptp, hmd]
    dsimp only
    refine ⟨rfl, ?_⟩
    simp [String.append_assoc]

/-- C5 counterexample: with `[images:False]` (capital F) the image-tagged
presenter is still skipped, because the code lowercases the command value;
the claim's "exactly when the commands map `images` to `\"false\"`" is
therefore too strict. -/
theorem C5_counterexample :
    dlookup (attach "x.png[images:False]").commands "images" = some "False" ∧
    "False" ≠ "false" ∧
    smart_presenter_wrapper [] none "text" "images"
        (fun a => { a with text := a.text ++ "!" })
        (attach "x.png[images:False]") =
      attach "x.png[images:False]" ∧
    (fun a => { a with text := a.text ++ "!" })
        (attach "x.png[images:False]") ≠
      attach "x.png[images:False]" := by
  refine ⟨by decide, by decide, by decide, by decide⟩

theorem detect_text_name (srcScan name : String)
    (h : name = "text" ∨ name = "markdown") :
    detect_presenter_category srcScan name = "text" := by
  cases h with
  | inl h =>
    subst h
    unfold detect_presenter_category
    dsimp only
    rw [show (image_patterns.any (fun p => pyIn p (pyLower "text"))) = false
      from by decide]
    rw [show (text_patterns.any (fun p => pyIn p (pyLower "text"))) = true
      from by decide]
    simp
  | inr h =>
    subst h
    unfold detect_presenter_category
    dsimp only
    rw [show (image_patterns.any (fun p => pyIn p (pyLower "markdown"))) = false
      from by decide]
    rw [show (text_patterns.any (fun p => pyIn p (pyLower "markdown"))) = true
      from by decide]
    simp

/-- C5 (amended): the smart presenter filter skips an image-tagged
presenter exactly when the lowercased `commands.images` value is `"false"`
(case-insensitively, images defaulting to enabled); for a text presenter
named `text` or `markdown` with a loaded payload, when the preferred
presenter chosen from `commands.format` has a type-specific handler for
the payload only the preferred one runs (the other returns the artifact
unchanged), otherwise the presenter runs as a fallback; with no payload
only the preferred presenter runs. -/
theorem C5_smart_filter :
    (∀ (registry : List (String × List (Option String)))
       (srcScan name : String) (f : Attachment → Attachment) (att : Attachment),
      detect_presenter_category srcScan name = "image" →
      (pyLower ((dlookup att.commands "images").getD "true") = "false" →
        smart_presenter_wrapper registry none srcScan name f att = att) ∧
      (pyLower ((dlookup att.commands "images").getD "true") ≠ "false" →
        smart_presenter_wrapper registry none srcScan name f att = f att)) ∧
    (∀ (registry : List (String × List (Option String)))
       (srcScan name : String) (f : Attachment → Attachment) (att : Attachment)
       (o : PyObj),
      (name = "text" ∨ name = "markdown") → att.obj = some o →
      (preferred_exists registry
          (preferred_presenter_for
            ((dlookup att.commands "format").getD "markdown") name)
          o.typeName = true →
        name ≠ preferred_presenter_for
          ((dlookup att.commands "format").getD "markdown") name →
        smart_presenter_wrapper registry none srcScan name f att = att) ∧
      (name = preferred_presenter_for
          ((dlookup att.commands "format").getD "markdown") name →
        smart_presenter_wrapper registry none srcScan name f att = f att) ∧
      (preferred_exists registry
          (preferred_presenter_for
            ((dlookup att.commands "format").getD "markdown") name)
          o.typeName = false →
        smart_presenter_wrapper registry none srcScan name f att = f att)) ∧
    (∀ (registry : List (String × List (Option String)))
       (srcScan name : String) (f : Attachment → Attachment) (att : Attachment),
      (name = "text" ∨ name = "markdown") → att.obj = none →
      (name ≠ preferred_presenter_for
          ((dlookup att.commands "format").getD "markdown") name →
        smart_presenter_wrapper registry none srcScan name f att = att) ∧
      (name = preferred_presenter_for
          ((dlookup att.commands "format").getD "markdown") name →
        smart_presenter_wrapper registry none srcScan name f att = f att)) := by
  refine ⟨?_, ?_, ?_⟩
  · intro registry srcScan name f att hdet
    constructor
    · intro hfalse
      unfold smart_presenter_wrapper
      dsimp only
      rw [hdet, if_pos ⟨fun hne => hne hfalse, rfl⟩]
    · intro hne
      unfold smart_presenter_wrapper
      dsimp only
      rw [hdet, if_neg (fun hc => hc.1 hne), if_neg (by decide)]
  · intro registry srcScan name f att o hname hobj
    have hdet := detect_text_name srcScan name hname
    refine ⟨?_, ?_, ?_⟩
    · intro hpe hnp
      unfold smart_presenter_wrapper
      dsimp only
      rw [hdet, if_neg (fun hc => absurd hc.2 (by decide)), if_pos rfl,
        if_pos hname, hobj]
      dsimp only
      rw [if_pos ⟨hpe, hnp⟩]
    · intro hpref
      unfold smart_presenter_wrapper
      dsimp only
      rw [hdet, if_neg (fun hc => absurd hc.2 (by decide)), if_pos rfl,
        if_pos hname, hobj]
      dsimp only
      rw [if_neg (fun hc => hc.2 hpref)]
    · intro hpe
      unfold smart_presenter_wrapper
      dsimp only
      rw [hdet, if_neg (fun hc => absurd hc.2 (by decide)), if_pos rfl,
        if_pos hname, hobj]
      dsimp only
      rw [if_neg (fun hc => by rw [hpe] at hc; exact absurd hc.1 (by decide))]
  · intro registry srcScan name f att hname hobj
    have hdet := detect_text_name srcScan name hname
    constructor
    · intro hnp
      unfold smart_presenter_wrapper
      dsimp only
      rw [hdet, if_neg (fun hc => absurd hc.2 (by decide)), if_pos rfl,
        if_pos hname, hobj]
      dsimp only
      rw [if_pos hnp]
    · intro hpref
      unfold smart_presenter_wrapper
      dsimp only
      rw [hdet, if_neg (fun hc => absurd hc.2 (by decide)), if_pos rfl,
        if_pos hname, hobj]
      dsimp only
      rw [if_neg (fun hc => hc hpref)]

/-- C5 witness: the image gate at `[images:false]`, and the markdown
presenter gated off in favour of a type-specific `text` presenter under
`[format:plain]`. -/
theorem C5_smart_filter_witness :
    (smart_presenter_wrapper [] none "text" "images"
        (fun a => { a with images := a.images ++ ["X"] })
        (attach "x.png[images:false]") = attach "x.png[images:false]") ∧
    (smart_presenter_wrapper [("text", [some "str"])] none "src" "markdown"
        (fun a => { a with text := a.text ++ "MD" })
        { attach "doc.txt[format:plain]" with obj := some (.str "body") } =
      { attach "doc.txt[format:plain]" with obj := some (.str "body") }) := by
  constructor
  · exact ((C5_smart_filter.1 [] "text" "images"
      (fun a => { a with images := a.images ++ ["X"] })
      (attach "x.png[images:false]")) (by decide)).1 (by decide)
  · exact (C5_smart_filter.2.1 [("text", [some "str"])] "src" "markdown"
      (fun a => { a with text := a.text ++ "MD" })
      { attach "doc.txt[format:plain]" with obj := some (.str "body") }
      (.str "body") (Or.inr rfl) rfl).1 (by decide) (by decide)

/-- C6 witness: the image-part clauses at concrete images. -/
theorem C6_claude_adapter_witness :
    claude_image_part "data:image/png;base64,QUJDREVGRw==" =
      some (.image "base64" "image/png"
        (splitFirst "data:image/png;base64,QUJDREVGRw==" ',').2) ∧
    claude_image_part "0123456789img_placeholder" = none ∧
    claude_image_part "aGVsbG8=" = none := by
  refine ⟨?_, ?_, ?_⟩
  · exact C6_claude_adapter.2.2.2.2.1 "data:image/png;base64,QUJDREVGRw=="
      (by decide) (by decide) (by decide)
  · exact C6_claude_adapter.2.2.2.2.2.1 "0123456789img_placeholder"
      (by decide) (by decide)
  · exact C6_claude_adapter.2.2.2.2.2.2 "aGVsbG8=" (by decide)

/-- C9 witness: the error paths at a concrete attachment. -/
theorem C9_presenter_errors_witness :
    mlookup (images_pdf (some (.error "io")) (attach "d.pdf")).metadata
        "pdf_images_error" = some (.s ("Error rendering PDF: " ++ "io")) ∧
    mlookup (images_pdf (some (.error "io")) (attach "d.pdf")).metadata
        "content_type" = mlookup (attach "d.pdf").metadata "content_type" ∧
    (markdown_pdf (attach "d.pdf") ⟨[.error "io"]⟩).metadata =
      (attach "d.pdf").metadata := by
  refine ⟨?_, ?_, ?_⟩
  · exact ((C9_presenter_errors (attach "d.pdf") "io").1).2.2.1
  · exact ((C9_presenter_errors (attach "d.pdf") "io").1).2.2.2 "content_type"
      (by decide)
  · exact ((C9_presenter_errors (attach "d.pdf") "io").2 (by decide)).1

end Attachments
